import Mathlib

/-!
Verification of `storyblok-assets-cleanup` (src/storyblok_assets_cleanup.py)
against its natural-language specification.

The Python program is shallowly embedded: pure helpers become Lean
functions over `String` / `List Char`; the mutable module state of
`StoryblokClient` becomes an explicit `ClientState` value; network and
filesystem effects become oracle functions passed in as parameters; the
recursive folder-path resolution (which Python runs with unbounded
recursion) takes an explicit fuel argument; runs of the `_main`
orchestrator are functions from an input asset list (the loaded cache)
to a result record carrying the final in-memory list, the last cache
snapshot written by `save_json`, an event trace and call counters.
-/

namespace StoryblokCleanup

/-! ## Eligibility filter (`should_be_deleted`, src line 449-458) -/

/-- The Python substring operator `needle in hay` on strings. -/
def strContainsSub (needle hay : String) : Bool :=
  decide (needle.data <:+: hay.data)

/-- `should_be_deleted(asset_path_name, filename)` from `_main`
(src/storyblok_assets_cleanup.py:449-458).  The first guard is Python
list membership `asset_path_name in blacklisted_asset_directory_paths`
(exact string equality against each entry); the second is
`any(word in filename for word in blacklisted_asset_filename_words if word)`
(case-sensitive substring test, skipping falsy i.e. empty words). -/
def should_be_deleted (blacklistedPaths blacklistedWords : List String)
    (assetPathName filename : String) : Bool :=
  if assetPathName ∈ blacklistedPaths then
    false
  else if blacklistedWords.any (fun word => word != "" && strContainsSub word filename) then
    false
  else
    true

/-! ## Folder path resolution (`get_folder_path_name`, src line 431-447) -/

/-- A Python value used as a folder id / parent id: `None`, an int, or a str. -/
inductive PyId where
  | none
  | int (n : Int)
  | str (s : String)
deriving DecidableEq

/-- A record of the `/asset_folders` collection. -/
structure Folder where
  id : PyId
  name : String
  parent_id : PyId
deriving DecidableEq

/-- `folder_ids_to_folder = {folder["id"]: folder for folder in all_folders}`
(src line 429): a Python dict comprehension, so for duplicate ids the later
entry wins.  Lookup returns the last folder in the list with the given id. -/
def folderLookup (folders : List Folder) (i : PyId) : Option Folder :=
  folders.foldl (fun acc f => if f.id = i then some f else acc) Option.none

/-- The root sentinels of `get_folder_path_name`:
`folder["parent_id"] in [None, "", 0, "0"]` (src line 435). -/
def rootSentinels : List PyId :=
  [PyId.none, PyId.str "", PyId.int 0, PyId.str "0"]

/-- `get_folder_path_name(folder_id)` (src line 431-447), with explicit fuel
standing for the recursion depth Python allows.  The result carries the path
together with a flag recording whether the missing-parent warning was printed
anywhere in the resolution chain.  `Option.none` models a `KeyError` on a
folder id that is not a key of `folder_ids_to_folder`, or fuel exhaustion. -/
def getFolderPathName (folders : List Folder) : Nat → PyId → Option (String × Bool)
  | 0, _ => Option.none
  | fuel + 1, folderId =>
    match folderLookup folders folderId with
    | Option.none => Option.none
    | some folder =>
      if folder.parent_id ∈ rootSentinels then
        some ("/" ++ folder.name, false)
      else
        match folderLookup folders folder.parent_id with
        | Option.none =>
          -- prints "Warning: Parent folder ... does not exist. Treating as root folder."
          some ("/" ++ folder.name, true)
        | some _ =>
          match getFolderPathName folders fuel folder.parent_id with
          | Option.none => Option.none
          | some (parentPath, warned) => some (parentPath ++ "/" ++ folder.name, warned)

/-! ## Client state (`StoryblokClient`, src line 23-109) -/

/-- The class attributes of `StoryblokClient`; each starts out `None`. -/
structure ClientState where
  space_id : Option String
  token : Option String
  base_url : Option String
deriving DecidableEq

/-- The initial class state (`_storyblok_space_id = None`, etc.). -/
def emptyClient : ClientState :=
  ⟨Option.none, Option.none, Option.none⟩

/-- Python truthiness of a `str | None` value: `None` and `""` are falsy. -/
def pyTruthy : Option String → Bool
  | Option.none => false
  | some s => s != ""

/-- `StoryblokClient.is_initialized` (src line 36-42): the truthiness of
`space_id and token and base_url`. -/
def is_initialized (c : ClientState) : Bool :=
  pyTruthy c.space_id && pyTruthy c.token && pyTruthy c.base_url

/-- The supported regions (`_REGION_TO_BASE_URLS`, src line 14-20). -/
inductive Region where
  | eu | us | ca | au | cn
deriving DecidableEq

/-- `_REGION_TO_BASE_URLS[region]` (src line 14-20, 51). -/
def regionToBaseUrl : Region → String
  | Region.eu => "https://mapi.storyblok.com"
  | Region.us => "https://api-us.storyblok.com"
  | Region.ca => "https://api-ca.storyblok.com"
  | Region.au => "https://api-ap.storyblok.com"
  | Region.cn => "https://app.storyblokchina.cn"

/-- Errors raised by the client methods. -/
inductive ClientError where
  | alreadyInit
  | notInit
deriving DecidableEq

/-- `StoryblokClient.init_client` (src line 44-51): raises when
`is_initialized()` is truthy, else stores the three attributes. -/
def init_client (c : ClientState) (spaceId tok : String) (r : Region) :
    Except ClientError ClientState :=
  if is_initialized c then
    Except.error ClientError.alreadyInit
  else
    Except.ok ⟨some spaceId, some tok, some (regionToBaseUrl r)⟩

/-! ## Transport (`StoryblokClient.request`, src line 53-109) -/

/-- An HTTP response as seen by `request`: a status code and the parse of the
`Retry-After` header — `Option.none` when the header is absent,
`some Option.none` when present but `float(...)` raises `ValueError`,
`some (some q)` when it parses to the number `q`. -/
structure HttpResp where
  status : Nat
  retryAfter : Option (Option ℚ)
deriving DecidableEq

/-- What one `requests.request(...)` call does on a given attempt: either a
response comes back or a `requests.exceptions.RequestException` is raised. -/
inductive AttemptOutcome where
  | resp (r : HttpResp)
  | exn
deriving DecidableEq

/-- Observable timing/network events of one `request` call:
every `time.sleep(q)` and every HTTP attempt, in order. -/
inductive TraceEv where
  | sleep (seconds : ℚ)
  | httpCall (attempt : Nat)
deriving DecidableEq

/-- The failure modes of `request`. -/
inductive ReqError where
  | notInit
  | httpError (status : Nat)
  | requestExn
  | exhaustedRetries
deriving DecidableEq

/-- The `for attempt in range(max_retries + 1)` loop of
`StoryblokClient.request` (src line 58-109).  `remaining` is the number of
loop iterations left (`max_retries + 1` at the start); `oracle attempt` is
the outcome of the HTTP call made on that attempt.  Status 429 with
`attempt < max_retries` honours a parseable `Retry-After` by sleeping it and
continuing; the next iteration then additionally sleeps the exponential
backoff `base_delay * 2 ^ (attempt - 1)` because `attempt > 0`.  A 429 on the
last attempt calls `raise_for_status()` (an `HTTPError`); a non-429 response
is returned as is; a `RequestException` sleeps `base_delay * 2 ^ attempt` and
retries, or re-raises on the last attempt. -/
def requestGo (oracle : Nat → AttemptOutcome) (maxRetries : Nat) (baseDelay : ℚ) :
    Nat → Nat → List TraceEv × Except ReqError HttpResp
  | 0, _ => ([], Except.error ReqError.exhaustedRetries)
  | remaining + 1, attempt =>
    let preSleep : ℚ := if attempt > 0 then baseDelay * 2 ^ (attempt - 1) else 1 / 10
    match oracle attempt with
    | AttemptOutcome.resp r =>
      if r.status = 429 then
        if attempt < maxRetries then
          match r.retryAfter with
          | some (some q) =>
            let next := requestGo oracle maxRetries baseDelay remaining (attempt + 1)
            (TraceEv.sleep preSleep :: TraceEv.httpCall attempt :: TraceEv.sleep q :: next.1,
              next.2)
          | some Option.none =>
            let next := requestGo oracle maxRetries baseDelay remaining (attempt + 1)
            (TraceEv.sleep preSleep :: TraceEv.httpCall attempt :: next.1, next.2)
          | Option.none =>
            let next := requestGo oracle maxRetries baseDelay remaining (attempt + 1)
            (TraceEv.sleep preSleep :: TraceEv.httpCall attempt :: next.1, next.2)
        else
          ([TraceEv.sleep preSleep, TraceEv.httpCall attempt],
            Except.error (ReqError.httpError r.status))
      else
        ([TraceEv.sleep preSleep, TraceEv.httpCall attempt], Except.ok r)
    | AttemptOutcome.exn =>
      if attempt < maxRetries then
        let next := requestGo oracle maxRetries baseDelay remaining (attempt + 1)
        (TraceEv.sleep preSleep :: TraceEv.httpCall attempt ::
            TraceEv.sleep (baseDelay * 2 ^ attempt) :: next.1,
          next.2)
      else
        ([TraceEv.sleep preSleep, TraceEv.httpCall attempt],
          Except.error ReqError.requestExn)

/-- `StoryblokClient.request` (src line 53-109): raises `RuntimeError`
when the client is not initialized, else runs the retry loop. -/
def request (c : ClientState) (oracle : Nat → AttemptOutcome) (maxRetries : Nat)
    (baseDelay : ℚ) : List TraceEv × Except ReqError HttpResp :=
  if is_initialized c then
    requestGo oracle maxRetries baseDelay (maxRetries + 1) 0
  else
    ([], Except.error ReqError.notInit)

/-! ## Theorems for C5, C6, C9 -/

/-- Claim C5: `should_be_deleted` returns `false` exactly when the folder
path is literally one of the blacklisted paths (list membership — no
matching by path beginnings) or some non-empty blacklisted word occurs as a
case-sensitive substring of the filename; empty-string entries in the word
list never cause exclusion; otherwise it returns `true`. -/
theorem C5_should_be_deleted_characterization
    (paths words : List String) (p f : String) :
    should_be_deleted paths words p f = false ↔
      (p ∈ paths ∨ ∃ w ∈ words, w ≠ "" ∧ w.data <:+: f.data) := by
  unfold should_be_deleted strContainsSub
  by_cases hp : p ∈ paths
  · simp [hp]
  · simp only [hp, if_false, if_neg hp, false_or]
    by_cases hw : words.any (fun word => word != "" && decide (word.data <:+: f.data))
    · simp only [hw, if_true]
      simp only [List.any_eq_true, Bool.and_eq_true, bne_iff_ne, ne_eq,
        decide_eq_true_eq] at hw
      simpa using hw
    · simp only [hw, if_false]
      simp only [List.any_eq_true, Bool.and_eq_true, bne_iff_ne, ne_eq,
        decide_eq_true_eq] at hw
      push_neg at hw
      constructor
      · intro h; exact absurd h (by simp)
      · rintro ⟨w, hwmem, hne, hsub⟩
        exact absurd hsub (hw w hwmem hne)

/-- Claim C6: for a folder present in the known folder set whose `parent_id`
is a root sentinel (`None`, `""`, `0`, `"0"`), `get_folder_path_name` returns
`"/" + name` (no warning); for a folder whose (non-sentinel) `parent_id` is
absent from the known set it returns the same root-form path, with the
warning flag set instead of raising. -/
theorem C6_root_and_missing_parent
    (folders : List Folder) (fid : PyId) (folder : Folder) (fuel : Nat)
    (hlook : folderLookup folders fid = some folder) :
    (folder.parent_id ∈ rootSentinels →
      getFolderPathName folders (fuel + 1) fid = some ("/" ++ folder.name, false)) ∧
    (folder.parent_id ∉ rootSentinels →
      folderLookup folders folder.parent_id = Option.none →
      getFolderPathName folders (fuel + 1) fid = some ("/" ++ folder.name, true)) := by
  constructor
  · intro hroot
    unfold getFolderPathName
    rw [hlook]
    simp [hroot]
  · intro hnotroot hmissing
    unfold getFolderPathName
    rw [hlook]
    simp [hnotroot, hmissing]

/-- Witness for C6 on a concrete folder set: folder 1 has sentinel parent
`None`; folder 2 has parent 99 which is absent from the set. -/
theorem C6_root_and_missing_parent_witness :
    getFolderPathName [⟨PyId.int 1, "A", PyId.none⟩, ⟨PyId.int 2, "B", PyId.int 99⟩]
        1 (PyId.int 1) = some ("/A", false) ∧
    getFolderPathName [⟨PyId.int 1, "A", PyId.none⟩, ⟨PyId.int 2, "B", PyId.int 99⟩]
        1 (PyId.int 2) = some ("/B", true) := by
  refine ⟨?_, ?_⟩
  · exact (C6_root_and_missing_parent
      [⟨PyId.int 1, "A", PyId.none⟩, ⟨PyId.int 2, "B", PyId.int 99⟩]
      (PyId.int 1) ⟨PyId.int 1, "A", PyId.none⟩ 0 (by decide)).1 (by decide)
  · exact (C6_root_and_missing_parent
      [⟨PyId.int 1, "A", PyId.none⟩, ⟨PyId.int 2, "B", PyId.int 99⟩]
      (PyId.int 2) ⟨PyId.int 2, "B", PyId.int 99⟩ 0 (by decide)).2 (by decide) (by decide)

/-- Claim C9: initializing the client with an empty-string space id or an
empty-string token succeeds, yet the resulting state is still not
"initialized" (Python truthiness of `""` is false): every `request` raises
the not-initialized error without any network attempt, and a second
`init_client` succeeds instead of raising the already-initialized error. -/
theorem C9_empty_credentials (tok spaceId : String) (r : Region) :
    (∃ s, init_client emptyClient "" tok r = Except.ok s ∧
      is_initialized s = false ∧
      (∀ oracle mr bd, request s oracle mr bd = ([], Except.error ReqError.notInit)) ∧
      (∀ s2 t2 r2, ∃ s', init_client s s2 t2 r2 = Except.ok s')) ∧
    (∃ s, init_client emptyClient spaceId "" r = Except.ok s ∧
      is_initialized s = false ∧
      (∀ oracle mr bd, request s oracle mr bd = ([], Except.error ReqError.notInit)) ∧
      (∀ s2 t2 r2, ∃ s', init_client s s2 t2 r2 = Except.ok s')) := by
  constructor
  · refine ⟨_, rfl, ?_, ?_, ?_⟩
    · rfl
    · intro oracle mr bd
      unfold request
      rfl
    · intro s2 t2 r2
      exact ⟨_, rfl⟩
  · have hinit : is_initialized ⟨some spaceId, some "", some (regionToBaseUrl r)⟩ = false := by
      simp [is_initialized, pyTruthy]
    refine ⟨_, rfl, hinit, ?_, ?_⟩
    · intro oracle mr bd
      unfold request
      rw [hinit]
      simp
    · intro s2 t2 r2
      refine ⟨⟨some s2, some t2, some (regionToBaseUrl r2)⟩, ?_⟩
      unfold init_client
      rw [hinit]
      simp

/-! ## Theorems for C3 (rate-limit handling) -/

/-- A client state that satisfies `is_initialized`. -/
def readyClient : ClientState :=
  ⟨some "sp", some "tok", some "https://mapi.storyblok.com"⟩

/-- A transport oracle whose first response is HTTP 429 with `Retry-After: 2`
and whose second response is a 200 success. -/
def oracle429 : Nat → AttemptOutcome
  | 0 => AttemptOutcome.resp ⟨429, some (some 2)⟩
  | _ => AttemptOutcome.resp ⟨200, Option.none⟩

/-- Counterexample to claim C3: on a 429 with `Retry-After: 2` followed by a
success (defaults `max_retries = 3`, `base_delay = 1`), the code sleeps the
Retry-After interval AND the exponential backoff `base_delay * 2 ^ 0` before
the retry: the waits between the two HTTP attempts are `2` and `1`, totalling
`3 ≠ 2`, so the wait is not "exactly the Retry-After interval". -/
theorem C3_counterexample :
    request readyClient oracle429 3 1 =
      ([TraceEv.sleep (1 / 10), TraceEv.httpCall 0, TraceEv.sleep 2,
        TraceEv.sleep 1, TraceEv.httpCall 1], Except.ok ⟨200, Option.none⟩) ∧
    (2 : ℚ) + 1 ≠ 2 := by
  constructor
  · have hc : is_initialized readyClient = true := by decide
    norm_num [request, requestGo, hc, oracle429]
  · norm_num

/-- Claim C3, amended: for a Transport call whose first response is HTTP 429
with a parseable `Retry-After` of `q` and whose second response is non-429,
exactly one retry occurs and the successful response is returned, but the
wait before that retry is `q` PLUS the exponential backoff
`base_delay * 2 ^ 0` (the loop adds its backoff sleep on every attempt
after the first), not `q` alone. -/
theorem C3_retry_after_plus_backoff (c : ClientState) (oracle : Nat → AttemptOutcome)
    (maxRetries : Nat) (baseDelay : ℚ) (q : ℚ) (r : HttpResp)
    (hc : is_initialized c = true)
    (hmr : 0 < maxRetries)
    (h0 : oracle 0 = AttemptOutcome.resp ⟨429, some (some q)⟩)
    (h1 : oracle 1 = AttemptOutcome.resp r)
    (hr : r.status ≠ 429) :
    request c oracle maxRetries baseDelay =
      ([TraceEv.sleep (1 / 10), TraceEv.httpCall 0, TraceEv.sleep q,
        TraceEv.sleep (baseDelay * 2 ^ (0 : ℕ)), TraceEv.httpCall 1], Except.ok r) := by
  obtain ⟨m, rfl⟩ : ∃ m, maxRetries = m + 1 :=
    ⟨maxRetries - 1, (Nat.succ_pred_eq_of_pos hmr).symm⟩
  simp [request, hc, requestGo, h0, h1, hr]

/-- Witness for the amended C3 at the concrete 429-then-200 oracle. -/
theorem C3_retry_after_plus_backoff_witness :
    request readyClient oracle429 3 1 =
      ([TraceEv.sleep (1 / 10), TraceEv.httpCall 0, TraceEv.sleep 2,
        TraceEv.sleep (1 * 2 ^ (0 : ℕ)), TraceEv.httpCall 1],
        Except.ok ⟨200, Option.none⟩) :=
  C3_retry_after_plus_backoff readyClient oracle429 3 1 2 ⟨200, Option.none⟩
    (by decide) (by decide) rfl rfl (by decide)

/-! ## Paginator (`get_all_paginated`, src line 182-236) -/

/-- One item of a paginated collection; `id` is `item.get("id")`, which can
be absent (`Option.none`). -/
structure PageItem where
  id : Option Nat
deriving DecidableEq

/-- One page response: the item list under the collection field, plus the
parse of the `total` response header — `Option.none` when the header is
absent, `some Option.none` when present but `int(...)` raises,
`some (some n)` when it parses to `n`. -/
structure PageResp where
  items : List PageItem
  totalHeader : Option (Option Int)
deriving DecidableEq

/-- `{item.get("id") for item in new_items if item.get("id") is not None}`
(src line 222, 227): the set of non-`None` item ids of a page. -/
def pageIds (items : List PageItem) : Finset Nat :=
  (items.filterMap PageItem.id).toFinset

/-- The `while page is not None` loop of `get_all_paginated`
(src line 189-236) with `params={}` at the call sites, so `per_page` is 100.
`server page` is the page returned by the remote API; `fuel` bounds the
number of iterations (the Python loop can run forever on a server that keeps
serving full pages; `Option.none` models that non-termination).  Each
iteration: remember the first parseable `total` header; compute the page's
id set; if `page > 1` and the non-empty id set equals the previous page's,
stop WITHOUT appending (duplicate-page bug detection); else append, then
stop if the accumulated count has reached the `total` header, else stop if
the page was shorter than `per_page`, else advance. -/
def paginate (server : Nat → PageResp) :
    Nat → Nat → List PageItem → Option Int → Option (Finset Nat) →
    Option (List PageItem × Nat)
  | 0, _, _, _, _ => Option.none
  | fuel + 1, page, acc, total, prevIds =>
    let resp := server page
    let total' : Option Int :=
      match total with
      | some t => some t
      | Option.none =>
        match resp.totalHeader with
        | some (some n) => some n
        | _ => Option.none
    let newItems := resp.items
    let currentIds := pageIds newItems
    if 1 < page && prevIds.isSome && decide currentIds.Nonempty &&
        decide (currentIds = prevIds.getD ∅) then
      some (acc, page)
    else
      let acc' := acc ++ newItems
      let stopTotal : Bool :=
        match total' with
        | some t => decide ((acc'.length : Int) ≥ t)
        | Option.none => false
      if stopTotal then some (acc', page)
      else if newItems.length < 100 then some (acc', page)
      else paginate server fuel (page + 1) acc' total' (some currentIds)

/-- `get_all_paginated(path, item_name)` with `params={}` (src line 182-236):
returns the collected items and the number of the page on which the loop
stopped (= the number of page requests made). -/
def getAllPaginated (server : Nat → PageResp) (fuel : Nat) :
    Option (List PageItem × Nat) :=
  paginate server fuel 1 [] Option.none Option.none

/-- The paginator as claim C4 words it: termination conditions evaluated in
the priority order (1) server-reported total reached by the accumulated
items counting the current page, (2) duplicate page — stop without
appending, (3) short page — stop after appending, else advance. -/
def paginateClaimOrder (server : Nat → PageResp) :
    Nat → Nat → List PageItem → Option Int → Option (Finset Nat) →
    Option (List PageItem × Nat)
  | 0, _, _, _, _ => Option.none
  | fuel + 1, page, acc, total, prevIds =>
    let resp := server page
    let total' : Option Int :=
      match total with
      | some t => some t
      | Option.none =>
        match resp.totalHeader with
        | some (some n) => some n
        | _ => Option.none
    let newItems := resp.items
    let currentIds := pageIds newItems
    let stopTotal : Bool :=
      match total' with
      | some t => decide (((acc.length + newItems.length : Nat) : Int) ≥ t)
      | Option.none => false
    if stopTotal then some (acc ++ newItems, page)
    else if 1 < page && prevIds.isSome && decide currentIds.Nonempty &&
        decide (currentIds = prevIds.getD ∅) then
      some (acc, page)
    else if newItems.length < 100 then some (acc ++ newItems, page)
    else paginateClaimOrder server fuel (page + 1) (acc ++ newItems) total' (some currentIds)

/-- `get_all_paginated` per claim C4's stated priority order. -/
def getAllPaginatedClaimOrder (server : Nat → PageResp) (fuel : Nat) :
    Option (List PageItem × Nat) :=
  paginateClaimOrder server fuel 1 [] Option.none Option.none

/-- The paginator as the amended claim words it: (1) duplicate page — stop
without appending; otherwise append, then (2) stop if the server-reported
total has been reached by the accumulated items, (3) stop if the page was
shorter than the page size, (4) else advance. -/
def paginateDupFirst (server : Nat → PageResp) :
    Nat → Nat → List PageItem → Option Int → Option (Finset Nat) →
    Option (List PageItem × Nat)
  | 0, _, _, _, _ => Option.none
  | fuel + 1, page, acc, total, prevIds =>
    let resp := server page
    let total' : Option Int :=
      match total with
      | some t => some t
      | Option.none =>
        match resp.totalHeader with
        | some (some n) => some n
        | _ => Option.none
    let newItems := resp.items
    let currentIds := pageIds newItems
    if 1 < page && prevIds.isSome && decide currentIds.Nonempty &&
        decide (currentIds = prevIds.getD ∅) then
      some (acc, page)
    else
      let acc' := acc ++ newItems
      let stopTotal : Bool :=
        match total' with
        | some t => decide ((acc'.length : Int) ≥ t)
        | Option.none => false
      if stopTotal then some (acc', page)
      else if newItems.length < 100 then some (acc', page)
      else paginateDupFirst server fuel (page + 1) acc' total' (some currentIds)

/-- A page of 100 items with ids 0..99. -/
def itemsA : List PageItem :=
  (List.range 100).map (fun n => ⟨some n⟩)

/-- A buggy server that reports `total: 200` and serves the same full page
of 100 items for every page number. -/
def serverDup : Nat → PageResp := fun _ => ⟨itemsA, some (some 200)⟩

set_option maxRecDepth 100000 in
/-- Counterexample to claim C4's priority order: on a server reporting
`total: 200` that serves the identical 100-item page twice, the code's
duplicate-page check fires BEFORE the total check and stops without
appending (100 items), whereas evaluating the total condition first, as the
claim orders the conditions, would stop with the duplicate page appended
(200 items).  The two orderings are observably different, so the code does
not evaluate the conditions in the claimed order. -/
theorem C4_counterexample :
    getAllPaginated serverDup 10 = some (itemsA, 2) ∧
    getAllPaginatedClaimOrder serverDup 10 = some (itemsA ++ itemsA, 2) ∧
    getAllPaginated serverDup 10 ≠ getAllPaginatedClaimOrder serverDup 10 := by
  refine ⟨rfl, rfl, ?_⟩
  intro h
  rw [show getAllPaginated serverDup 10 = some (itemsA, 2) from rfl,
    show getAllPaginatedClaimOrder serverDup 10 = some (itemsA ++ itemsA, 2) from rfl] at h
  have h' : itemsA = itemsA ++ itemsA := by simpa using h
  have hl := congrArg List.length h'
  simp [itemsA] at hl

/-- Claim C4, amended: the paginator's termination conditions are evaluated
each page in this priority order: first, stop without appending when the
current page's non-empty item-id set equals the previous page's; then, after
appending, stop if the server-reported total item count has been reached by
the accumulated items; then stop if the page had fewer items than the page
size (100); otherwise advance. -/
theorem C4_dup_check_first (server : Nat → PageResp) :
    ∀ (fuel page : Nat) (acc : List PageItem) (total : Option Int)
      (prevIds : Option (Finset Nat)),
      paginate server fuel page acc total prevIds =
        paginateDupFirst server fuel page acc total prevIds := by
  intro fuel
  induction fuel with
  | zero => intro page acc total prevIds; rfl
  | succ n ih =>
    intro page acc total prevIds
    simp only [paginate, paginateDupFirst, ih]

/-! ## Usage classifier (`is_asset_in_use`, src line 262-277) -/

/-- The index of the first occurrence of `sep` in `l`, or `Option.none` if
`sep` does not occur (the search performed by Python `str.split(sep, 1)`). -/
def findSubIdx (sep : List Char) : List Char → Option Nat
  | [] => if sep.isEmpty then some 0 else Option.none
  | c :: rest =>
    if sep.isPrefixOf (c :: rest) then some 0
    else (findSubIdx sep rest).map (· + 1)

/-- `s.split(sep, 1)[1]` (src line 263): the portion of `s` after the first
occurrence of `sep`.  Python's `split` returns a one-element list when `sep`
does not occur, so the `[1]` subscript raises `IndexError`; modelled as
`Option.none`. -/
def splitOnceAfter (sep s : String) : Option String :=
  match findSubIdx sep.data s.data with
  | some i => some ⟨s.data.drop (i + sep.data.length)⟩
  | Option.none => Option.none

/-- `is_asset_in_use(asset)` (src line 262-277).  `storyOracle fp` is the
`stories` list returned by `GET /stories` with `reference_search=fp` (and
`per_page=1, page=1`).  The first component lists the `reference_search`
values of the search requests actually issued; the second is the returned
boolean, `Option.none` standing for the `IndexError` raised — before any
request — when the filename does not contain `".storyblok.com"`. -/
def is_asset_in_use (storyOracle : String → List Nat) (filename : String) :
    List String × Option Bool :=
  match splitOnceAfter ".storyblok.com" filename with
  | Option.none => ([], Option.none)
  | some fp => ([fp], some (decide ((storyOracle fp).length ≠ 0)))

lemma findSubIdx_eq_none (sep : List Char) (hsep : sep ≠ []) :
    ∀ l : List Char, findSubIdx sep l = Option.none ↔ ¬ sep <:+: l := by
  intro l
  induction l with
  | nil =>
    have : sep.isEmpty = false := by simpa [List.isEmpty_iff] using hsep
    simp [findSubIdx, this, List.infix_nil, hsep]
  | cons c rest ih =>
    simp only [findSubIdx]
    by_cases hpre : sep.isPrefixOf (c :: rest)
    · simp only [hpre, if_true]
      constructor
      · intro h; exact absurd h (by simp)
      · intro h
        exact absurd (List.IsPrefix.isInfix (by simpa using hpre)) h
    · rw [if_neg hpre]
      rw [Option.map_eq_none', ih, List.infix_cons_iff]
      have hpre' : ¬ sep <+: c :: rest := by simpa using hpre
      tauto

lemma findSubIdx_eq_some (sep : List Char) :
    ∀ (l : List Char) (i : Nat), findSubIdx sep l = some i →
      sep <+: l.drop i ∧ ∀ j < i, ¬ sep <+: l.drop j := by
  intro l
  induction l with
  | nil =>
    intro i h
    by_cases hsep : sep.isEmpty
    · simp only [findSubIdx, hsep, if_true, Option.some.injEq] at h
      subst h
      simp [List.isEmpty_iff.mp hsep]
    · simp [findSubIdx, hsep] at h
  | cons c rest ih =>
    intro i h
    simp only [findSubIdx] at h
    by_cases hpre : sep.isPrefixOf (c :: rest)
    · rw [if_pos hpre] at h
      simp only [Option.some.injEq] at h
      subst h
      exact ⟨by simpa using hpre, by omega⟩
    · rw [if_neg hpre, Option.map_eq_some'] at h
      obtain ⟨i', hi', rfl⟩ := h
      obtain ⟨h1, h2⟩ := ih i' hi'
      refine ⟨by simpa using h1, ?_⟩
      intro j hj
      match j with
      | 0 => simpa using hpre
      | j' + 1 => exact h2 j' (by omega)

lemma splitOnceAfter_decomp (sep s t : String)
    (h : splitOnceAfter sep s = some t) :
    ∃ pre : List Char,
      s.data = pre ++ sep.data ++ t.data ∧
      ∀ (pre2 t2 : List Char), s.data = pre2 ++ sep.data ++ t2 →
        pre.length ≤ pre2.length := by
  unfold splitOnceAfter at h
  cases hidx : findSubIdx sep.data s.data with
  | none => rw [hidx] at h; exact absurd h (by simp)
  | some i =>
    rw [hidx] at h
    simp only [Option.some.injEq] at h
    obtain ⟨hdropPre, hmin⟩ := findSubIdx_eq_some sep.data s.data i hidx
    obtain ⟨tail, htail⟩ := hdropPre
    have ht : t.data = tail := by
      have hts : t.data = s.data.drop (i + sep.data.length) :=
        (congrArg String.data h).symm
      have hdd : s.data.drop (i + sep.data.length) = (s.data.drop i).drop sep.data.length := by
        rw [List.drop_drop]
      rw [hts, hdd, ← htail, List.drop_left]
    refine ⟨s.data.take i, ?_, ?_⟩
    · have hassoc : s.data.take i ++ (sep.data ++ t.data) =
          s.data.take i ++ sep.data ++ t.data := by
        rw [List.append_assoc]
      rw [← hassoc, ht, htail, List.take_append_drop]
    · intro pre2 t2 hdec
      by_contra hlt
      push_neg at hlt
      simp only [List.length_take, lt_min_iff] at hlt
      apply hmin pre2.length hlt.1
      rw [hdec, List.append_assoc, List.drop_left]
      exact ⟨t2, rfl⟩

/-- Claim C10: when the filename does not contain `".storyblok.com"`,
`is_asset_in_use` raises `IndexError` (modelled `Option.none`) before
issuing any search request (the issued-request list is empty); when it does,
the `reference_search` fragment sent is exactly the portion of the filename
after the FIRST occurrence of `".storyblok.com"`, and the asset is
classified as in use iff the returned stories list is non-empty. -/
theorem C10_usage_classifier (storyOracle : String → List Nat) (filename : String) :
    (¬ ((".storyblok.com").data <:+: filename.data) →
      is_asset_in_use storyOracle filename = ([], Option.none)) ∧
    (∀ fp b, is_asset_in_use storyOracle filename = ([fp], some b) →
      (∃ pre : List Char,
        filename.data = pre ++ (".storyblok.com").data ++ fp.data ∧
        ∀ (pre2 t2 : List Char),
          filename.data = pre2 ++ (".storyblok.com").data ++ t2 →
          pre.length ≤ pre2.length) ∧
      (b = true ↔ storyOracle fp ≠ [])) := by
  constructor
  · intro hnotin
    have hnone : findSubIdx (".storyblok.com").data filename.data = Option.none :=
      (findSubIdx_eq_none (".storyblok.com").data (by decide) filename.data).mpr hnotin
    unfold is_asset_in_use splitOnceAfter
    rw [hnone]
  · intro fp b heq
    unfold is_asset_in_use at heq
    cases hsplit : splitOnceAfter ".storyblok.com" filename with
    | none =>
      rw [hsplit] at heq
      simp at heq
    | some fp' =>
      rw [hsplit] at heq
      simp only [Prod.mk.injEq, List.cons.injEq, and_true, Option.some.injEq] at heq
      obtain ⟨hfp, hb⟩ := heq
      subst hfp
      refine ⟨splitOnceAfter_decomp ".storyblok.com" filename _ hsplit, ?_⟩
      rw [← hb]
      simp [List.length_eq_zero]

/-- Witness for C10: a filename without the host marker yields the error and
no request; a concrete storyblok URL yields the fragment after the first
`".storyblok.com"` and, with an empty stories result, classification false. -/
theorem C10_usage_classifier_witness :
    is_asset_in_use (fun _ => []) "nofragment.png" = ([], Option.none) ∧
    ((∃ pre : List Char,
        ("https://a.storyblok.com/f/9/x.png").data =
          pre ++ (".storyblok.com").data ++ ("/f/9/x.png").data ∧
        ∀ (pre2 t2 : List Char),
          ("https://a.storyblok.com/f/9/x.png").data =
            pre2 ++ (".storyblok.com").data ++ t2 →
          pre.length ≤ pre2.length) ∧
      (false = true ↔ (fun _ => ([] : List Nat)) "/f/9/x.png" ≠ [])) := by
  constructor
  · exact (C10_usage_classifier (fun _ => []) "nofragment.png").1 (by decide)
  · exact (C10_usage_classifier (fun _ => []) "https://a.storyblok.com/f/9/x.png").2
      "/f/9/x.png" false (by decide)

/-! ## Orchestrator (`_main`, src line 285-567)

The parts of `_main` after argument parsing and collection loading: the
classification loop (src 462-475), the not-in-use filter and
`to_be_deleted` recomputation (src 477-504), and the ACT loop
(src 535-567).  Network and filesystem effects are oracle functions;
`save_json(assets_cache_path, all_assets)` is modelled by recording a
snapshot of the full current asset list in a `saved` component. -/

/-- A record of the `/assets` collection, with the fields `_main` reads or
writes.  `is_in_use = Option.none` models the key being absent from the
asset dict (never classified); `is_deleted` is read with
`asset.get("is_deleted", False)`, so a missing key is `false`. -/
structure Asset where
  id : Nat
  filename : String
  asset_folder_id : PyId
  is_in_use : Option Bool
  to_be_deleted : Bool
  is_deleted : Bool
  backed_up_to : Option String
deriving DecidableEq

/-- The configuration values `_main` uses in these phases.
`should_delete_assets` is the value AFTER the interactive confirmation
(src 521-527); `blacklisted_paths` / `blacklisted_words` are
`--ignore-path` / `--ignore-word`. -/
structure Config where
  should_delete_assets : Bool
  backup_assets : Bool
  continue_download_on_failure : Bool
  blacklisted_paths : List String
  blacklisted_words : List String
  space_id : String
  backup_directory : String

/-- The effect oracles of a run: `inUse a` is the boolean computed by
`is_asset_in_use(asset)` (src 469); `fileExists p` is `path.exists(p)`
(src 152); `downloadOk url` is `response.ok` of `requests.get(url)`
(src 160-166). -/
structure Oracles where
  inUse : Asset → Bool
  fileExists : String → Bool
  downloadOk : String → Bool

/-- Events observable in a run, in program order: each classification
request, each backup attempt (with whether it produced a backup file), and
each remote DELETE call. -/
inductive Event where
  | classifyCall (id : Nat)
  | backupAttempt (id : Nat) (success : Bool)
  | deleteCall (id : Nat)
deriving DecidableEq

/-- The last path component of `s` (everything after the final `/`). -/
def lastComponent (s : List Char) : List Char :=
  (s.reverse.takeWhile (fun c => c ≠ '/')).reverse

/-- `pathlib.Path(asset_url).suffix` (src 140): from the last component
`name`, the substring from the last dot, provided that dot is neither the
first nor the last character of `name`; otherwise the empty string. -/
def pySuffix (s : String) : String :=
  let name := lastComponent s.data
  match (name.reverse.findIdx? (fun c => c = '.')).map (fun j => name.length - 1 - j) with
  | some i => if 0 < i ∧ i < name.length - 1 then ⟨name.drop i⟩ else ""
  | Option.none => ""

/-- The outcome of `backup_asset` for the caller: a returned file path, a
returned `None` (download failed, `continue_download_on_failure` set), or
`abort(...)` i.e. `sys.exit(1)`. -/
inductive BackupResult where
  | ok (filePath : String)
  | failedContinue
  | abortRun
deriving DecidableEq

/-- `backup_asset(asset_id, asset_url, space_id, backup_directory,
continue_download_on_failure)` (src 133-179).  The target path is
`{backup_directory}/{space_id}/{asset_id}{extension}`; an existing file is
an idempotent skip returning the path; a failed download returns `None`
under `continue_download_on_failure`, else aborts the process. -/
def backup_asset (oracles : Oracles) (assetId : Nat) (assetUrl spaceId backupDir : String)
    (continueOnFailure : Bool) : BackupResult :=
  let filePath := backupDir ++ "/" ++ spaceId ++ "/" ++ toString assetId ++ pySuffix assetUrl
  if oracles.fileExists filePath then
    BackupResult.ok filePath
  else if oracles.downloadOk assetUrl then
    BackupResult.ok filePath
  else if continueOnFailure then
    BackupResult.failedContinue
  else
    BackupResult.abortRun

/-- Result of the classification loop (src 462-475). -/
structure ClassifyOut where
  assets : List Asset
  saved : List Asset
  calls : Nat
  trace : List Event

/-- The classification loop `for asset in all_assets` (src 462-475):
resets `to_be_deleted` to `False` on every asset, skips assets whose
`is_in_use` key is already present, classifies the rest, and saves the
whole (partially mutated) list every 25 classifications.  `doneRev` holds
the already-visited assets in reverse; a save snapshots
`doneRev.reverse ++ current :: rest`, exactly the in-memory list Python
would serialize at that moment. -/
def classifyLoop (oracles : Oracles) (doneRev : List Asset) (pending : List Asset)
    (count : Nat) (saved : List Asset) (trace : List Event) (calls : Nat) : ClassifyOut :=
  match pending with
  | [] => ⟨doneRev.reverse, saved, calls, trace⟩
  | a :: rest =>
    let a1 : Asset := { a with to_be_deleted := false }
    match a1.is_in_use with
    | some _ => classifyLoop oracles (a1 :: doneRev) rest count saved trace calls
    | Option.none =>
      let a2 : Asset := { a1 with is_in_use := some (oracles.inUse a1) }
      let count' := count + 1
      let saved' := if count' % 25 = 0 then doneRev.reverse ++ a2 :: rest else saved
      classifyLoop oracles (a2 :: doneRev) rest count' saved'
        (trace ++ [Event.classifyCall a2.id]) (calls + 1)

/-- Membership in `assets_not_in_use` (src 477-481):
`not asset["is_in_use"] and not asset.get("is_deleted", False)`.
After CLASSIFY the `is_in_use` key is always present; the `Option.none`
case keeps Python's truthiness of `None`. -/
def notInUsePred (a : Asset) : Bool :=
  match a.is_in_use with
  | some b => !b && !a.is_deleted
  | Option.none => !a.is_deleted

/-- The effect of the filter loop (src 491-504) on one asset: members of
`assets_not_in_use` get `to_be_deleted` recomputed from the folder path and
filename; other assets keep their value. -/
def filterStep (pathOf : PyId → String) (cfg : Config) (a : Asset) : Asset :=
  if notInUsePred a then
    let tbd := should_be_deleted cfg.blacklisted_paths cfg.blacklisted_words
      (pathOf a.asset_folder_id) a.filename
    { a with to_be_deleted := tbd }
  else a

/-- The filter loop `for asset in assets_not_in_use` (src 491-504), applied
over the full in-memory list (the members of `assets_not_in_use` alias into
`all_assets`).  `pathOf` is the `folder_id_to_path_name` mapping built at
src 483-487 (folders are read-only, so it is a fixed parameter). -/
def filterPhase (pathOf : PyId → String) (cfg : Config) (assets : List Asset) : List Asset :=
  assets.map (filterStep pathOf cfg)

/-- The body of the ACT loop for one asset with `to_be_deleted` set
(src 540-559): optional backup, then optional deletion.  Returns the
mutated asset, its event block, the number of DELETE calls made, and
whether `backup_asset` aborted the process. -/
def actAsset (oracles : Oracles) (cfg : Config) (a : Asset) :
    Asset × List Event × Nat × Bool :=
  let afterBackup : Asset × List Event × Bool :=
    if cfg.backup_assets then
      match backup_asset oracles a.id a.filename cfg.space_id cfg.backup_directory
          cfg.continue_download_on_failure with
      | BackupResult.ok p =>
        ({ a with backed_up_to := some p }, [Event.backupAttempt a.id true], false)
      | BackupResult.failedContinue =>
        (a, [Event.backupAttempt a.id false], false)
      | BackupResult.abortRun =>
        (a, [Event.backupAttempt a.id false], true)
    else
      (a, [], false)
  match afterBackup with
  | (a1, evs1, aborted) =>
    if aborted then
      (a1, evs1, 0, true)
    else if cfg.should_delete_assets then
      ({ a1 with is_deleted := true }, evs1 ++ [Event.deleteCall a.id], 1, false)
    else
      (a1, evs1, 0, false)

/-- Result of the ACT loop (src 535-567). -/
structure ActOut where
  assets : List Asset
  saved : List Asset
  deletes : Nat
  trace : List Event
  aborted : Bool

/-- The ACT loop `for asset in assets_not_in_use` (src 535-567), iterating
the full in-memory list and acting on the members of `assets_not_in_use`
whose `to_be_deleted` is set (the others are skipped with no save).  After
each acted asset, if backup or deletion is enabled, the full list is saved.
On `abort` (src 173-175, `sys.exit(1)`) the loop stops: the in-memory list
keeps the un-acted suffix and the last save is whatever was saved before. -/
def actLoop (oracles : Oracles) (cfg : Config) :
    List Asset → List Asset → List Asset → Nat → List Event → ActOut
  | doneRev, [], saved, deletes, trace => ⟨doneRev.reverse, saved, deletes, trace, false⟩
  | doneRev, a :: rest, saved, deletes, trace =>
    if notInUsePred a && a.to_be_deleted then
      let r := actAsset oracles cfg a
      if r.2.2.2 then
        ⟨doneRev.reverse ++ r.1 :: rest, saved, deletes, trace ++ r.2.1, true⟩
      else
        let saved' :=
          if cfg.backup_assets || cfg.should_delete_assets then
            doneRev.reverse ++ r.1 :: rest
          else saved
        actLoop oracles cfg (r.1 :: doneRev) rest saved' (deletes + r.2.2.1) (trace ++ r.2.1)
    else
      actLoop oracles cfg (a :: doneRev) rest saved deletes trace

/-- The observable outcome of one `_main` run on a loaded asset list. -/
structure RunOut where
  final : List Asset
  saved : List Asset
  classifyCalls : Nat
  deleteCalls : Nat
  trace : List Event
  aborted : Bool

/-- One `_main` run over the loaded (or just-fetched-and-saved) asset list:
CLASSIFY, then FILTER, then ACT.  The initial `saved` snapshot is the input
list itself (the cache file as loaded, or as written right after the
fetch, src 414-418). -/
def runMain (oracles : Oracles) (cfg : Config) (pathOf : PyId → String)
    (assets : List Asset) : RunOut :=
  let c := classifyLoop oracles [] assets 0 assets [] 0
  let filtered := filterPhase pathOf cfg c.assets
  let act := actLoop oracles cfg [] filtered c.saved 0 c.trace
  ⟨act.assets, act.saved, c.calls, act.deletes, act.trace, act.aborted⟩

/-! ### Helper lemmas about the run phases -/

/-- The effect of one classification-loop iteration on its asset. -/
def classifyStep (oracles : Oracles) (a : Asset) : Asset :=
  let a1 : Asset := { a with to_be_deleted := false }
  match a1.is_in_use with
  | some _ => a1
  | Option.none => { a1 with is_in_use := some (oracles.inUse a1) }

lemma classifyLoop_assets (o : Oracles) :
    ∀ (pending doneRev : List Asset) (count : Nat) (saved : List Asset)
      (trace : List Event) (calls : Nat),
      (classifyLoop o doneRev pending count saved trace calls).assets =
        doneRev.reverse ++ pending.map (classifyStep o) := by
  intro pending
  induction pending with
  | nil => intro doneRev count saved trace calls; simp [classifyLoop]
  | cons a rest ih =>
    intro doneRev count saved trace calls
    cases ha : a.is_in_use with
    | some b => simp [classifyLoop, classifyStep, ha, ih]
    | none => simp [classifyLoop, classifyStep, ha, ih]

lemma classifyLoop_calls (o : Oracles) :
    ∀ (pending doneRev : List Asset) (count : Nat) (saved : List Asset)
      (trace : List Event) (calls : Nat),
      (classifyLoop o doneRev pending count saved trace calls).calls =
        calls + pending.countP (fun a => a.is_in_use.isNone) := by
  intro pending
  induction pending with
  | nil => intro doneRev count saved trace calls; simp [classifyLoop]
  | cons a rest ih =>
    intro doneRev count saved trace calls
    cases ha : a.is_in_use with
    | some b =>
      simp [classifyLoop, ha, ih, List.countP_cons]
    | none =>
      simp [classifyLoop, ha, ih, List.countP_cons]
      omega

lemma classifyLoop_trace_mem (o : Oracles) :
    ∀ (pending doneRev : List Asset) (count : Nat) (saved : List Asset)
      (trace : List Event) (calls : Nat) (e : Event),
      e ∈ (classifyLoop o doneRev pending count saved trace calls).trace →
      e ∈ trace ∨ ∃ id, e = Event.classifyCall id := by
  intro pending
  induction pending with
  | nil =>
    intro doneRev count saved trace calls e he
    simp [classifyLoop] at he
    exact Or.inl he
  | cons a rest ih =>
    intro doneRev count saved trace calls e he
    cases ha : a.is_in_use with
    | some b =>
      rw [show classifyLoop o doneRev (a :: rest) count saved trace calls =
        classifyLoop o ({ a with to_be_deleted := false } :: doneRev) rest count saved
          trace calls from by simp [classifyLoop, ha]] at he
      exact ih _ _ _ _ _ _ he
    | none =>
      rw [show classifyLoop o doneRev (a :: rest) count saved trace calls =
        classifyLoop o (classifyStep o a :: doneRev) rest (count + 1)
          (if (count + 1) % 25 = 0 then doneRev.reverse ++ classifyStep o a :: rest
          else saved)
          (trace ++ [Event.classifyCall a.id]) (calls + 1) from by
        simp [classifyLoop, classifyStep, ha]] at he
      rcases ih _ _ _ _ _ _ he with hmem | hcls
      · rcases List.mem_append.mp hmem with h1 | h2
        · exact Or.inl h1
        · simp at h2
          exact Or.inr ⟨a.id, h2⟩
      · exact Or.inr hcls

lemma classifyLoop_saved_mem (o : Oracles) :
    ∀ (pending doneRev : List Asset) (count : Nat) (saved : List Asset)
      (trace : List Event) (calls : Nat) (x : Asset),
      x ∈ (classifyLoop o doneRev pending count saved trace calls).saved →
      x ∈ saved ∨ x ∈ doneRev ∨ x ∈ pending ∨ ∃ a ∈ pending, x = classifyStep o a := by
  intro pending
  induction pending with
  | nil =>
    intro doneRev count saved trace calls x hx
    simp [classifyLoop] at hx
    exact Or.inl hx
  | cons a rest ih =>
    intro doneRev count saved trace calls x hx
    cases ha : a.is_in_use with
    | some b =>
      rw [show classifyLoop o doneRev (a :: rest) count saved trace calls =
        classifyLoop o ({ a with to_be_deleted := false } :: doneRev) rest count saved
          trace calls from by simp [classifyLoop, ha]] at hx
      rcases ih _ _ _ _ _ _ hx with h | h | h | ⟨a', ha', hx'⟩
      · exact Or.inl h
      · rcases List.mem_cons.mp h with h1 | h2
        · refine Or.inr (Or.inr (Or.inr ⟨a, List.mem_cons_self a rest, ?_⟩))
          rw [h1]
          simp [classifyStep, ha]
        · exact Or.inr (Or.inl h2)
      · exact Or.inr (Or.inr (Or.inl (List.mem_cons_of_mem a h)))
      · exact Or.inr (Or.inr (Or.inr ⟨a', List.mem_cons_of_mem a ha', hx'⟩))
    | none =>
      rw [show classifyLoop o doneRev (a :: rest) count saved trace calls =
        classifyLoop o (classifyStep o a :: doneRev) rest (count + 1)
          (if (count + 1) % 25 = 0 then doneRev.reverse ++ classifyStep o a :: rest
          else saved)
          (trace ++ [Event.classifyCall a.id]) (calls + 1) from by
        simp [classifyLoop, classifyStep, ha]] at hx
      rcases ih _ _ _ _ _ _ hx with h | h | h | ⟨a', ha', hx'⟩
      · by_cases hc : (count + 1) % 25 = 0
        · rw [if_pos hc] at h
          rcases List.mem_append.mp h with h1 | h2
          · exact Or.inr (Or.inl (by simpa using h1))
          · rcases List.mem_cons.mp h2 with h3 | h4
            · exact Or.inr (Or.inr (Or.inr ⟨a, List.mem_cons_self a rest, h3⟩))
            · exact Or.inr (Or.inr (Or.inl (List.mem_cons_of_mem a h4)))
        · rw [if_neg hc] at h
          exact Or.inl h
      · rcases List.mem_cons.mp h with h1 | h2
        · exact Or.inr (Or.inr (Or.inr ⟨a, List.mem_cons_self a rest, h1⟩))
        · exact Or.inr (Or.inl h2)
      · exact Or.inr (Or.inr (Or.inl (List.mem_cons_of_mem a h)))
      · exact Or.inr (Or.inr (Or.inr ⟨a', List.mem_cons_of_mem a ha', hx'⟩))

lemma classifyStep_to_be_deleted (o : Oracles) (a : Asset) :
    (classifyStep o a).to_be_deleted = false := by
  unfold classifyStep
  cases a.is_in_use <;> rfl

lemma classifyStep_fields (o : Oracles) (a : Asset) :
    (classifyStep o a).id = a.id ∧
    (classifyStep o a).filename = a.filename ∧
    (classifyStep o a).asset_folder_id = a.asset_folder_id ∧
    (classifyStep o a).is_deleted = a.is_deleted := by
  unfold classifyStep
  cases a.is_in_use <;> exact ⟨rfl, rfl, rfl, rfl⟩

lemma classifyStep_is_in_use_isSome (o : Oracles) (a : Asset) :
    (classifyStep o a).is_in_use.isSome = true := by
  unfold classifyStep
  cases ha : a.is_in_use <;> simp [ha]

lemma classifyStep_of_isSome (o : Oracles) (a : Asset)
    (h : a.is_in_use.isSome = true) :
    classifyStep o a = { a with to_be_deleted := false } := by
  unfold classifyStep
  cases ha : a.is_in_use with
  | some b => simp
  | none => rw [ha] at h; simp at h

lemma notInUsePred_congr (x y : Asset) (h1 : x.is_in_use = y.is_in_use)
    (h2 : x.is_deleted = y.is_deleted) : notInUsePred x = notInUsePred y := by
  unfold notInUsePred
  rw [h1, h2]

lemma filterStep_fields (pathOf : PyId → String) (cfg : Config) (a : Asset) :
    (filterStep pathOf cfg a).id = a.id ∧
    (filterStep pathOf cfg a).filename = a.filename ∧
    (filterStep pathOf cfg a).asset_folder_id = a.asset_folder_id ∧
    (filterStep pathOf cfg a).is_in_use = a.is_in_use ∧
    (filterStep pathOf cfg a).is_deleted = a.is_deleted := by
  unfold filterStep
  split <;> exact ⟨rfl, rfl, rfl, rfl, rfl⟩

lemma filterStep_tbd_of_pred (pathOf : PyId → String) (cfg : Config) (a : Asset)
    (h : notInUsePred a = true) :
    (filterStep pathOf cfg a).to_be_deleted =
      should_be_deleted cfg.blacklisted_paths cfg.blacklisted_words
        (pathOf a.asset_folder_id) a.filename := by
  unfold filterStep
  rw [if_pos h]

lemma filterStep_eq_of_not_pred (pathOf : PyId → String) (cfg : Config) (a : Asset)
    (h : notInUsePred a = false) : filterStep pathOf cfg a = a := by
  unfold filterStep
  rw [h]
  simp

lemma actAsset_fields (o : Oracles) (cfg : Config) (a : Asset) :
    ((actAsset o cfg a).1).id = a.id ∧
    ((actAsset o cfg a).1).filename = a.filename ∧
    ((actAsset o cfg a).1).asset_folder_id = a.asset_folder_id ∧
    ((actAsset o cfg a).1).is_in_use = a.is_in_use ∧
    ((actAsset o cfg a).1).to_be_deleted = a.to_be_deleted := by
  by_cases hb : cfg.backup_assets <;>
    by_cases hd : cfg.should_delete_assets <;>
    cases hres : backup_asset o a.id a.filename cfg.space_id cfg.backup_directory
      cfg.continue_download_on_failure <;>
    simp [actAsset, hb, hd, hres]

lemma actAsset_deleted_of_no_abort (o : Oracles) (cfg : Config) (a : Asset)
    (hd : cfg.should_delete_assets = true)
    (hab : (actAsset o cfg a).2.2.2 = false) :
    ((actAsset o cfg a).1).is_deleted = true := by
  by_cases hb : cfg.backup_assets
  · cases hres : backup_asset o a.id a.filename cfg.space_id cfg.backup_directory
        cfg.continue_download_on_failure <;>
      simp_all [actAsset, hb, hd, hres]
  · simp_all [actAsset, hb, hd]

lemma actAsset_deletes_of_no_delete (o : Oracles) (cfg : Config) (a : Asset)
    (hd : cfg.should_delete_assets = false) :
    (actAsset o cfg a).2.2.1 = 0 := by
  by_cases hb : cfg.backup_assets
  · cases hres : backup_asset o a.id a.filename cfg.space_id cfg.backup_directory
        cfg.continue_download_on_failure <;>
      simp_all [actAsset, hb, hd, hres]
  · simp_all [actAsset, hb, hd]

/-- Every delete call inside an event list is immediately preceded by a
backup attempt for the same asset id; under `strict`, by a successful one. -/
def DelPreceded (strict : Bool) (l : List Event) : Prop :=
  ∀ j id, l[j]? = some (Event.deleteCall id) →
    ∃ j' s, j = j' + 1 ∧ l[j']? = some (Event.backupAttempt id s) ∧
      (strict = true → s = true)

/-- `DelPreceded` for one per-asset event block, self-contained (the
matching backup attempt lies inside the block). -/
def BlockGood (strict : Bool) (b : List Event) : Prop :=
  ∀ k id, b[k]? = some (Event.deleteCall id) →
    ∃ k' s, k = k' + 1 ∧ b[k']? = some (Event.backupAttempt id s) ∧
      (strict = true → s = true)

lemma delPreceded_append (strict : Bool) (l b : List Event)
    (hP : DelPreceded strict l) (hB : BlockGood strict b) :
    DelPreceded strict (l ++ b) := by
  intro j id hj
  by_cases hlt : j < l.length
  · rw [List.getElem?_append_left hlt] at hj
    obtain ⟨j', s, rfl, hj', hs⟩ := hP j id hj
    refine ⟨j', s, rfl, ?_, hs⟩
    rw [List.getElem?_append_left (by omega)]
    exact hj'
  · push_neg at hlt
    rw [List.getElem?_append_right hlt] at hj
    obtain ⟨k', s, hk, hk', hs⟩ := hB (j - l.length) id hj
    refine ⟨l.length + k', s, by omega, ?_, hs⟩
    rw [List.getElem?_append_right (by omega)]
    have : l.length + k' - l.length = k' := by omega
    rw [this]
    exact hk'

lemma backup_asset_continue_of_failedContinue (o : Oracles) (assetId : Nat)
    (assetUrl spaceId backupDir : String) (cont : Bool)
    (h : backup_asset o assetId assetUrl spaceId backupDir cont =
      BackupResult.failedContinue) : cont = true := by
  cases hc : cont with
  | true => rfl
  | false =>
    rw [hc] at h
    simp only [backup_asset, Bool.false_eq_true, if_false] at h
    split at h <;> first | simp at h | (split at h <;> simp at h)

lemma actAsset_blockGood (o : Oracles) (cfg : Config) (a : Asset) (strict : Bool)
    (hb : cfg.backup_assets = true)
    (hstrict : strict = true → cfg.continue_download_on_failure = false) :
    BlockGood strict (actAsset o cfg a).2.1 := by
  cases hres : backup_asset o a.id a.filename cfg.space_id cfg.backup_directory
      cfg.continue_download_on_failure with
  | ok p =>
    by_cases hd : cfg.should_delete_assets
    · have hevs : (actAsset o cfg a).2.1 =
          [Event.backupAttempt a.id true, Event.deleteCall a.id] := by
        simp [actAsset, hb, hres, hd]
      intro k id hk
      rw [hevs] at hk
      match k with
      | 0 => simp at hk
      | 1 =>
        simp only [List.getElem?_cons_succ, List.getElem?_cons_zero,
          Option.some.injEq, Event.deleteCall.injEq] at hk
        subst hk
        exact ⟨0, true, rfl, by simp [hevs], fun _ => rfl⟩
      | k + 2 => simp at hk
    · have hevs : (actAsset o cfg a).2.1 = [Event.backupAttempt a.id true] := by
        simp [actAsset, hb, hres, hd]
      intro k id hk
      rw [hevs] at hk
      match k with
      | 0 => simp at hk
      | k + 1 => simp at hk
  | failedContinue =>
    have hcont : cfg.continue_download_on_failure = true :=
      backup_asset_continue_of_failedContinue _ _ _ _ _ _ hres
    by_cases hd : cfg.should_delete_assets
    · have hevs : (actAsset o cfg a).2.1 =
          [Event.backupAttempt a.id false, Event.deleteCall a.id] := by
        simp [actAsset, hb, hres, hd]
      intro k id hk
      rw [hevs] at hk
      match k with
      | 0 => simp at hk
      | 1 =>
        simp only [List.getElem?_cons_succ, List.getElem?_cons_zero,
          Option.some.injEq, Event.deleteCall.injEq] at hk
        subst hk
        refine ⟨0, false, rfl, by simp [hevs], ?_⟩
        intro hs
        rw [hstrict hs] at hcont
        cases hcont
      | k + 2 => simp at hk
    · have hevs : (actAsset o cfg a).2.1 = [Event.backupAttempt a.id false] := by
        simp [actAsset, hb, hres, hd]
      intro k id hk
      rw [hevs] at hk
      match k with
      | 0 => simp at hk
      | k + 1 => simp at hk
  | abortRun =>
    have hevs : (actAsset o cfg a).2.1 = [Event.backupAttempt a.id false] := by
      simp [actAsset, hb, hres]
    intro k id hk
    rw [hevs] at hk
    match k with
    | 0 => simp at hk
    | k + 1 => simp at hk

/-- The effect of the ACT loop on one in-memory asset. -/
def actStep (o : Oracles) (cfg : Config) (a : Asset) : Asset :=
  if notInUsePred a && a.to_be_deleted then (actAsset o cfg a).1 else a

lemma actLoop_no_abort (o : Oracles) (cfg : Config) :
    ∀ (pending doneRev saved : List Asset) (deletes : Nat) (trace : List Event),
      (actLoop o cfg doneRev pending saved deletes trace).aborted = false →
      (actLoop o cfg doneRev pending saved deletes trace).assets =
        doneRev.reverse ++ pending.map (actStep o cfg) ∧
      ∀ a ∈ pending, (notInUsePred a && a.to_be_deleted) = true →
        (actAsset o cfg a).2.2.2 = false := by
  intro pending
  induction pending with
  | nil =>
    intro doneRev saved deletes trace _
    refine ⟨by simp [actLoop], ?_⟩
    intro a ha
    simp at ha
  | cons a rest ih =>
    intro doneRev saved deletes trace h
    by_cases hcond : (notInUsePred a && a.to_be_deleted) = true
    · by_cases hab : (actAsset o cfg a).2.2.2 = true
      · exfalso
        simp [actLoop, hcond, hab] at h
      · simp only [Bool.not_eq_true] at hab
        have heq : actLoop o cfg doneRev (a :: rest) saved deletes trace =
            actLoop o cfg ((actAsset o cfg a).1 :: doneRev) rest
              (if cfg.backup_assets || cfg.should_delete_assets then
                doneRev.reverse ++ (actAsset o cfg a).1 :: rest else saved)
              (deletes + (actAsset o cfg a).2.2.1) (trace ++ (actAsset o cfg a).2.1) := by
          simp [actLoop, hcond, hab]
        rw [heq] at h ⊢
        obtain ⟨h1, h2⟩ := ih _ _ _ _ h
        refine ⟨?_, ?_⟩
        · rw [h1]
          simp [actStep, hcond]
        · intro a' ha' hcond'
          rcases List.mem_cons.mp ha' with rfl | hmem
          · exact hab
          · exact h2 a' hmem hcond'
    · have heq : actLoop o cfg doneRev (a :: rest) saved deletes trace =
          actLoop o cfg (a :: doneRev) rest saved deletes trace := by
        simp [actLoop, hcond]
      rw [heq] at h ⊢
      obtain ⟨h1, h2⟩ := ih _ _ _ _ h
      refine ⟨?_, ?_⟩
      · rw [h1]
        simp only [Bool.not_eq_true] at hcond
        simp [actStep, hcond]
      · intro a' ha' hcond'
        rcases List.mem_cons.mp ha' with rfl | hmem
        · exact absurd hcond' hcond
        · exact h2 a' hmem hcond'

lemma actLoop_deletes_of_no_delete (o : Oracles) (cfg : Config)
    (hd : cfg.should_delete_assets = false) :
    ∀ (pending doneRev saved : List Asset) (deletes : Nat) (trace : List Event),
      (actLoop o cfg doneRev pending saved deletes trace).deletes = deletes := by
  intro pending
  induction pending with
  | nil => intro doneRev saved deletes trace; simp [actLoop]
  | cons a rest ih =>
    intro doneRev saved deletes trace
    by_cases hcond : (notInUsePred a && a.to_be_deleted) = true
    · by_cases hab : (actAsset o cfg a).2.2.2 = true
      · simp [actLoop, hcond, hab]
      · simp only [Bool.not_eq_true] at hab
        simp only [actLoop, hcond, if_true, hab, Bool.false_eq_true, if_false]
        rw [ih]
        rw [actAsset_deletes_of_no_delete o cfg a hd]
        omega
    · simp only [Bool.not_eq_true] at hcond
      simp only [actLoop, hcond, Bool.false_eq_true, if_false]
      exact ih _ _ _ _

lemma actLoop_deletes_of_no_eligible (o : Oracles) (cfg : Config) :
    ∀ (pending doneRev saved : List Asset) (deletes : Nat) (trace : List Event),
      (∀ a ∈ pending, (notInUsePred a && a.to_be_deleted) = false) →
      (actLoop o cfg doneRev pending saved deletes trace).deletes = deletes := by
  intro pending
  induction pending with
  | nil => intro doneRev saved deletes trace _; simp [actLoop]
  | cons a rest ih =>
    intro doneRev saved deletes trace hall
    have hcond : (notInUsePred a && a.to_be_deleted) = false :=
      hall a (List.mem_cons_self a rest)
    simp only [actLoop, hcond, Bool.false_eq_true, if_false]
    exact ih _ _ _ _ (fun a' ha' => hall a' (List.mem_cons_of_mem a ha'))

lemma actLoop_assets_mem (o : Oracles) (cfg : Config) :
    ∀ (pending doneRev saved : List Asset) (deletes : Nat) (trace : List Event)
      (x : Asset),
      x ∈ (actLoop o cfg doneRev pending saved deletes trace).assets →
      x ∈ doneRev ∨ x ∈ pending ∨ ∃ a ∈ pending, x = (actAsset o cfg a).1 := by
  intro pending
  induction pending with
  | nil =>
    intro doneRev saved deletes trace x hx
    simp [actLoop] at hx
    exact Or.inl hx
  | cons a rest ih =>
    intro doneRev saved deletes trace x hx
    by_cases hcond : (notInUsePred a && a.to_be_deleted) = true
    · by_cases hab : (actAsset o cfg a).2.2.2 = true
      · simp only [actLoop, hcond, if_true, hab] at hx
        rcases List.mem_append.mp hx with h1 | h2
        · exact Or.inl (by simpa using h1)
        · rcases List.mem_cons.mp h2 with rfl | h3
          · exact Or.inr (Or.inr ⟨a, List.mem_cons_self a rest, rfl⟩)
          · exact Or.inr (Or.inl (List.mem_cons_of_mem a h3))
      · simp only [Bool.not_eq_true] at hab
        rw [show actLoop o cfg doneRev (a :: rest) saved deletes trace =
            actLoop o cfg ((actAsset o cfg a).1 :: doneRev) rest
              (if cfg.backup_assets || cfg.should_delete_assets then
                doneRev.reverse ++ (actAsset o cfg a).1 :: rest else saved)
              (deletes + (actAsset o cfg a).2.2.1)
              (trace ++ (actAsset o cfg a).2.1) from by
          simp [actLoop, hcond, hab]] at hx
        rcases ih _ _ _ _ _ hx with h | h | ⟨a', ha', hx'⟩
        · rcases List.mem_cons.mp h with rfl | h2
          · exact Or.inr (Or.inr ⟨a, List.mem_cons_self a rest, rfl⟩)
          · exact Or.inl h2
        · exact Or.inr (Or.inl (List.mem_cons_of_mem a h))
        · exact Or.inr (Or.inr ⟨a', List.mem_cons_of_mem a ha', hx'⟩)
    · simp only [Bool.not_eq_true] at hcond
      rw [show actLoop o cfg doneRev (a :: rest) saved deletes trace =
          actLoop o cfg (a :: doneRev) rest saved deletes trace from by
        simp [actLoop, hcond]] at hx
      rcases ih _ _ _ _ _ hx with h | h | ⟨a', ha', hx'⟩
      · rcases List.mem_cons.mp h with rfl | h2
        · exact Or.inr (Or.inl (List.mem_cons_self x rest))
        · exact Or.inl h2
      · exact Or.inr (Or.inl (List.mem_cons_of_mem a h))
      · exact Or.inr (Or.inr ⟨a', List.mem_cons_of_mem a ha', hx'⟩)

lemma actLoop_saved_mem (o : Oracles) (cfg : Config) :
    ∀ (pending doneRev saved : List Asset) (deletes : Nat) (trace : List Event)
      (x : Asset),
      x ∈ (actLoop o cfg doneRev pending saved deletes trace).saved →
      x ∈ saved ∨ x ∈ doneRev ∨ x ∈ pending ∨ ∃ a ∈ pending, x = (actAsset o cfg a).1 := by
  intro pending
  induction pending with
  | nil =>
    intro doneRev saved deletes trace x hx
    simp [actLoop] at hx
    exact Or.inl hx
  | cons a rest ih =>
    intro doneRev saved deletes trace x hx
    by_cases hcond : (notInUsePred a && a.to_be_deleted) = true
    · by_cases hab : (actAsset o cfg a).2.2.2 = true
      · simp only [actLoop, hcond, if_true, hab] at hx
        exact Or.inl hx
      · simp only [Bool.not_eq_true] at hab
        rw [show actLoop o cfg doneRev (a :: rest) saved deletes trace =
            actLoop o cfg ((actAsset o cfg a).1 :: doneRev) rest
              (if cfg.backup_assets || cfg.should_delete_assets then
                doneRev.reverse ++ (actAsset o cfg a).1 :: rest else saved)
              (deletes + (actAsset o cfg a).2.2.1)
              (trace ++ (actAsset o cfg a).2.1) from by
          simp [actLoop, hcond, hab]] at hx
        rcases ih _ _ _ _ _ hx with h | h | h | ⟨a', ha', hx'⟩
        · by_cases hs : (cfg.backup_assets || cfg.should_delete_assets) = true
          · rw [if_pos hs] at h
            rcases List.mem_append.mp h with h1 | h2
            · exact Or.inr (Or.inl (by simpa using h1))
            · rcases List.mem_cons.mp h2 with rfl | h3
              · exact Or.inr (Or.inr (Or.inr ⟨a, List.mem_cons_self a rest, rfl⟩))
              · exact Or.inr (Or.inr (Or.inl (List.mem_cons_of_mem a h3)))
          · simp only [Bool.not_eq_true] at hs
            rw [if_neg (by simp [hs])] at h
            exact Or.inl h
        · rcases List.mem_cons.mp h with rfl | h2
          · exact Or.inr (Or.inr (Or.inr ⟨a, List.mem_cons_self a rest, rfl⟩))
          · exact Or.inr (Or.inl h2)
        · exact Or.inr (Or.inr (Or.inl (List.mem_cons_of_mem a h)))
        · exact Or.inr (Or.inr (Or.inr ⟨a', List.mem_cons_of_mem a ha', hx'⟩))
    · simp only [Bool.not_eq_true] at hcond
      rw [show actLoop o cfg doneRev (a :: rest) saved deletes trace =
          actLoop o cfg (a :: doneRev) rest saved deletes trace from by
        simp [actLoop, hcond]] at hx
      rcases ih _ _ _ _ _ hx with h | h | h | ⟨a', ha', hx'⟩
      · exact Or.inl h
      · rcases List.mem_cons.mp h with rfl | h2
        · exact Or.inr (Or.inr (Or.inl (List.mem_cons_self x rest)))
        · exact Or.inr (Or.inl h2)
      · exact Or.inr (Or.inr (Or.inl (List.mem_cons_of_mem a h)))
      · exact Or.inr (Or.inr (Or.inr ⟨a', List.mem_cons_of_mem a ha', hx'⟩))

lemma actAsset_abort_evs (o : Oracles) (cfg : Config) (a : Asset)
    (hab : (actAsset o cfg a).2.2.2 = true) :
    (actAsset o cfg a).2.1 = [Event.backupAttempt a.id false] := by
  by_cases hb : cfg.backup_assets <;>
    by_cases hd : cfg.should_delete_assets <;>
    cases hres : backup_asset o a.id a.filename cfg.space_id cfg.backup_directory
      cfg.continue_download_on_failure <;>
    simp_all [actAsset, hb, hd, hres]

lemma actAsset_no_failed_ba (o : Oracles) (cfg : Config) (a : Asset)
    (hcont : cfg.continue_download_on_failure = false)
    (hab : (actAsset o cfg a).2.2.2 = false) :
    ∀ id, Event.backupAttempt id false ∉ (actAsset o cfg a).2.1 := by
  intro id
  by_cases hb : cfg.backup_assets
  · cases hres : backup_asset o a.id a.filename cfg.space_id cfg.backup_directory
        cfg.continue_download_on_failure with
    | ok p =>
      by_cases hd : cfg.should_delete_assets <;> simp [actAsset, hb, hres, hd]
    | failedContinue =>
      have hc := backup_asset_continue_of_failedContinue _ _ _ _ _ _ hres
      rw [hcont] at hc
      cases hc
    | abortRun =>
      have habt : (actAsset o cfg a).2.2.2 = true := by simp [actAsset, hb, hres]
      rw [habt] at hab
      cases hab
  · by_cases hd : cfg.should_delete_assets <;> simp [actAsset, hb, hd]

lemma actLoop_trace_delPreceded (o : Oracles) (cfg : Config) (strict : Bool)
    (hb : cfg.backup_assets = true)
    (hstrict : strict = true → cfg.continue_download_on_failure = false) :
    ∀ (pending doneRev saved : List Asset) (deletes : Nat) (trace : List Event),
      DelPreceded strict trace →
      DelPreceded strict (actLoop o cfg doneRev pending saved deletes trace).trace := by
  intro pending
  induction pending with
  | nil =>
    intro doneRev saved deletes trace hP
    simpa [actLoop] using hP
  | cons a rest ih =>
    intro doneRev saved deletes trace hP
    by_cases hcond : (notInUsePred a && a.to_be_deleted) = true
    · by_cases hab : (actAsset o cfg a).2.2.2 = true
      · have htr : (actLoop o cfg doneRev (a :: rest) saved deletes trace).trace =
            trace ++ (actAsset o cfg a).2.1 := by
          simp [actLoop, hcond, hab]
        rw [htr]
        exact delPreceded_append _ _ _ hP (actAsset_blockGood o cfg a strict hb hstrict)
      · simp only [Bool.not_eq_true] at hab
        rw [show actLoop o cfg doneRev (a :: rest) saved deletes trace =
            actLoop o cfg ((actAsset o cfg a).1 :: doneRev) rest
              (if cfg.backup_assets || cfg.should_delete_assets then
                doneRev.reverse ++ (actAsset o cfg a).1 :: rest else saved)
              (deletes + (actAsset o cfg a).2.2.1)
              (trace ++ (actAsset o cfg a).2.1) from by
          simp [actLoop, hcond, hab]]
        exact ih _ _ _ _
          (delPreceded_append _ _ _ hP (actAsset_blockGood o cfg a strict hb hstrict))
    · simp only [Bool.not_eq_true] at hcond
      rw [show actLoop o cfg doneRev (a :: rest) saved deletes trace =
          actLoop o cfg (a :: doneRev) rest saved deletes trace from by
        simp [actLoop, hcond]]
      exact ih _ _ _ _ hP

lemma actLoop_failed_ba_last (o : Oracles) (cfg : Config)
    (hcont : cfg.continue_download_on_failure = false) :
    ∀ (pending doneRev saved : List Asset) (deletes : Nat) (trace : List Event),
      (∀ id, Event.backupAttempt id false ∉ trace) →
      ∀ j id,
        (actLoop o cfg doneRev pending saved deletes trace).trace[j]? =
          some (Event.backupAttempt id false) →
        (actLoop o cfg doneRev pending saved deletes trace).trace.length = j + 1 ∧
        (actLoop o cfg doneRev pending saved deletes trace).aborted = true := by
  intro pending
  induction pending with
  | nil =>
    intro doneRev saved deletes trace hno j id hj
    exfalso
    simp only [actLoop] at hj
    exact hno id (List.getElem?_mem hj)
  | cons a rest ih =>
    intro doneRev saved deletes trace hno j id hj
    by_cases hcond : (notInUsePred a && a.to_be_deleted) = true
    · by_cases hab : (actAsset o cfg a).2.2.2 = true
      · have habevs := actAsset_abort_evs o cfg a hab
        have htr : (actLoop o cfg doneRev (a :: rest) saved deletes trace).trace =
            trace ++ [Event.backupAttempt a.id false] := by
          simp [actLoop, hcond, hab, habevs]
        have habout : (actLoop o cfg doneRev (a :: rest) saved deletes trace).aborted =
            true := by
          simp [actLoop, hcond, hab]
        rw [htr] at hj
        refine ⟨?_, habout⟩
        rw [htr]
        by_cases hlt : j < trace.length
        · rw [List.getElem?_append_left hlt] at hj
          exact absurd (List.getElem?_mem hj) (hno id)
        · push_neg at hlt
          rw [List.getElem?_append_right hlt] at hj
          have hzero : j - trace.length = 0 := by
            cases hc : j - trace.length with
            | zero => rfl
            | succ n => rw [hc] at hj; simp at hj
          simp only [List.length_append, List.length_cons, List.length_nil]
          omega
      · simp only [Bool.not_eq_true] at hab
        rw [show actLoop o cfg doneRev (a :: rest) saved deletes trace =
            actLoop o cfg ((actAsset o cfg a).1 :: doneRev) rest
              (if cfg.backup_assets || cfg.should_delete_assets then
                doneRev.reverse ++ (actAsset o cfg a).1 :: rest else saved)
              (deletes + (actAsset o cfg a).2.2.1)
              (trace ++ (actAsset o cfg a).2.1) from by
          simp [actLoop, hcond, hab]] at hj ⊢
        refine ih _ _ _ _ ?_ j id hj
        intro id' hmem
        rcases List.mem_append.mp hmem with h1 | h2
        · exact hno id' h1
        · exact actAsset_no_failed_ba o cfg a hcont hab id' h2
    · simp only [Bool.not_eq_true] at hcond
      rw [show actLoop o cfg doneRev (a :: rest) saved deletes trace =
          actLoop o cfg (a :: doneRev) rest saved deletes trace from by
        simp [actLoop, hcond]] at hj ⊢
      exact ih _ _ _ _ hno j id hj

lemma actStep_fields (o : Oracles) (cfg : Config) (a : Asset) :
    (actStep o cfg a).id = a.id ∧
    (actStep o cfg a).filename = a.filename ∧
    (actStep o cfg a).asset_folder_id = a.asset_folder_id ∧
    (actStep o cfg a).is_in_use = a.is_in_use ∧
    (actStep o cfg a).to_be_deleted = a.to_be_deleted := by
  unfold actStep
  split
  · exact actAsset_fields o cfg a
  · exact ⟨rfl, rfl, rfl, rfl, rfl⟩

/-- `ElemInv a`: `to_be_deleted` never set while the asset is known in use. -/
def ElemInv (a : Asset) : Prop :=
  a.to_be_deleted = true → a.is_in_use ≠ some true

lemma elemInv_filtered (pathOf : PyId → String) (cfg : Config) (o : Oracles)
    (assets : List Asset) (x : Asset)
    (hx : x ∈ filterPhase pathOf cfg (classifyLoop o [] assets 0 assets [] 0).assets) :
    x.to_be_deleted = true → x.is_in_use = some false ∧ x.is_deleted = false := by
  intro htbd
  rw [filterPhase, classifyLoop_assets] at hx
  simp only [List.reverse_nil, List.nil_append, List.map_map, List.mem_map] at hx
  obtain ⟨z, _, rfl⟩ := hx
  set y := classifyStep o z with hy
  by_cases hpred : notInUsePred y = true
  · have hfields := filterStep_fields pathOf cfg y
    have hiu : (filterStep pathOf cfg y).is_in_use = y.is_in_use := hfields.2.2.2.1
    have hdel : (filterStep pathOf cfg y).is_deleted = y.is_deleted := hfields.2.2.2.2
    have hsome := classifyStep_is_in_use_isSome o z
    rw [Function.comp_apply] at htbd ⊢
    unfold notInUsePred at hpred
    cases hiu' : y.is_in_use with
    | none => rw [hiu'] at hsome; cases hsome
    | some b =>
      rw [hiu'] at hpred
      simp only [Bool.and_eq_true, Bool.not_eq_true'] at hpred
      constructor
      · rw [hiu, hiu', hpred.1]
      · rw [hdel, hpred.2]
  · simp only [Bool.not_eq_true] at hpred
    rw [Function.comp_apply] at htbd
    rw [filterStep_eq_of_not_pred pathOf cfg y hpred] at htbd
    rw [hy] at htbd
    rw [classifyStep_to_be_deleted] at htbd
    cases htbd

/-- Claim C7: `to_be_deleted` is never true while `is_in_use` is true.  The
classification loop resets `to_be_deleted` to false for every asset; the
filter recomputes it only for assets that are not in use and not already
deleted; consequently the final in-memory state always satisfies the
invariant, and — provided the loaded input satisfied it — so does every
cache snapshot written during the run. -/
theorem C7_to_be_deleted_never_while_in_use (o : Oracles) (cfg : Config)
    (pathOf : PyId → String) (assets : List Asset) :
    (∀ a ∈ (classifyLoop o [] assets 0 assets [] 0).assets, a.to_be_deleted = false) ∧
    (∀ a ∈ filterPhase pathOf cfg (classifyLoop o [] assets 0 assets [] 0).assets,
      a.to_be_deleted = true → a.is_in_use = some false ∧ a.is_deleted = false) ∧
    (∀ a ∈ (runMain o cfg pathOf assets).final,
      a.to_be_deleted = true → a.is_in_use ≠ some true) ∧
    ((∀ a ∈ assets, a.to_be_deleted = true → a.is_in_use ≠ some true) →
      ∀ a ∈ (runMain o cfg pathOf assets).saved,
        a.to_be_deleted = true → a.is_in_use ≠ some true) := by
  have hfiltered := elemInv_filtered pathOf cfg o assets
  have hactAsset_inv : ∀ a : Asset,
      (a.to_be_deleted = true → a.is_in_use ≠ some true) →
      ((actAsset o cfg a).1.to_be_deleted = true →
        (actAsset o cfg a).1.is_in_use ≠ some true) := by
    intro a hinv htbd
    have hfields := actAsset_fields o cfg a
    rw [hfields.2.2.2.1]
    exact hinv (by rw [← hfields.2.2.2.2]; exact htbd)
  refine ⟨?_, ?_, ?_, ?_⟩
  · intro a ha
    rw [classifyLoop_assets] at ha
    simp only [List.reverse_nil, List.nil_append, List.mem_map] at ha
    obtain ⟨z, _, rfl⟩ := ha
    exact classifyStep_to_be_deleted o z
  · exact hfiltered
  · intro a ha htbd
    have hmem : a ∈ (actLoop o cfg []
        (filterPhase pathOf cfg (classifyLoop o [] assets 0 assets [] 0).assets)
        (classifyLoop o [] assets 0 assets [] 0).saved 0
        (classifyLoop o [] assets 0 assets [] 0).trace).assets := ha
    rcases actLoop_assets_mem o cfg _ _ _ _ _ a hmem with h | h | ⟨a', ha', rfl⟩
    · simp at h
    · have := hfiltered a h htbd
      rw [this.1]
      simp
    · refine hactAsset_inv a' ?_ htbd
      intro htbd'
      have := hfiltered a' ha' htbd'
      rw [this.1]
      simp
  · intro hInv a ha htbd
    have hmem : a ∈ (actLoop o cfg []
        (filterPhase pathOf cfg (classifyLoop o [] assets 0 assets [] 0).assets)
        (classifyLoop o [] assets 0 assets [] 0).saved 0
        (classifyLoop o [] assets 0 assets [] 0).trace).saved := ha
    rcases actLoop_saved_mem o cfg _ _ _ _ _ a hmem with h | h | h | ⟨a', ha', rfl⟩
    · rcases classifyLoop_saved_mem o _ _ _ _ _ _ a h with h1 | h1 | h1 | ⟨z, _, rfl⟩
      · exact hInv a h1 htbd
      · simp at h1
      · exact hInv a h1 htbd
      · rw [classifyStep_to_be_deleted] at htbd; cases htbd
    · simp at h
    · have := hfiltered a h htbd
      rw [this.1]
      simp
    · refine hactAsset_inv a' ?_ htbd
      intro htbd'
      have := hfiltered a' ha' htbd'
      rw [this.1]
      simp

lemma classify_trace_classifyCalls (o : Oracles) (assets : List Asset) :
    ∀ e ∈ (classifyLoop o [] assets 0 assets [] 0).trace, ∃ id, e = Event.classifyCall id := by
  intro e he
  rcases classifyLoop_trace_mem o assets [] 0 assets [] 0 e he with h | h
  · simp at h
  · exact h

lemma classify_trace_delPreceded (o : Oracles) (assets : List Asset) (strict : Bool) :
    DelPreceded strict (classifyLoop o [] assets 0 assets [] 0).trace := by
  intro j id hj
  exfalso
  obtain ⟨id', heq⟩ := classify_trace_classifyCalls o assets _ (List.getElem?_mem hj)
  cases heq

lemma classify_trace_no_failed_ba (o : Oracles) (assets : List Asset) :
    ∀ id, Event.backupAttempt id false ∉ (classifyLoop o [] assets 0 assets [] 0).trace := by
  intro id hmem
  obtain ⟨id', heq⟩ := classify_trace_classifyCalls o assets _ hmem
  cases heq

/-- Claim C2: in the ACT phase with backup requested, each asset's backup
attempt immediately precedes its delete call in the event trace (so backup
is attempted strictly before any deletion of that asset); and when
`continue_download_on_failure` is false, a failed backup attempt is the
last event of the run — the run aborts, so no delete call for that asset
(nor any later event) is ever issued. -/
theorem C2_backup_attempt_precedes_delete (o : Oracles) (cfg : Config)
    (pathOf : PyId → String) (assets : List Asset)
    (hb : cfg.backup_assets = true) :
    (∀ j id, (runMain o cfg pathOf assets).trace[j]? = some (Event.deleteCall id) →
      ∃ j' s, j = j' + 1 ∧
        (runMain o cfg pathOf assets).trace[j']? = some (Event.backupAttempt id s)) ∧
    (cfg.continue_download_on_failure = false →
      ∀ j id, (runMain o cfg pathOf assets).trace[j]? =
          some (Event.backupAttempt id false) →
        (runMain o cfg pathOf assets).trace.length = j + 1 ∧
        (runMain o cfg pathOf assets).aborted = true) := by
  have htr : (runMain o cfg pathOf assets).trace =
      (actLoop o cfg []
        (filterPhase pathOf cfg (classifyLoop o [] assets 0 assets [] 0).assets)
        (classifyLoop o [] assets 0 assets [] 0).saved 0
        (classifyLoop o [] assets 0 assets [] 0).trace).trace := rfl
  have habt : (runMain o cfg pathOf assets).aborted =
      (actLoop o cfg []
        (filterPhase pathOf cfg (classifyLoop o [] assets 0 assets [] 0).assets)
        (classifyLoop o [] assets 0 assets [] 0).saved 0
        (classifyLoop o [] assets 0 assets [] 0).trace).aborted := rfl
  constructor
  · intro j id hj
    have hP : DelPreceded false (runMain o cfg pathOf assets).trace := by
      rw [htr]
      exact actLoop_trace_delPreceded o cfg false hb (by simp) _ _ _ _ _
        (classify_trace_delPreceded o assets false)
    obtain ⟨j', s, hjj, hj', _⟩ := hP j id hj
    exact ⟨j', s, hjj, hj'⟩
  · intro hcont j id hj
    rw [htr] at hj ⊢
    rw [habt]
    exact actLoop_failed_ba_last o cfg hcont _ _ _ _ _
      (classify_trace_no_failed_ba o assets) j id hj

/-- Claim C1, amended: when `continue_download_on_failure` is false, a
remote delete call for an asset is issued only if backup was not requested
or the immediately preceding backup attempt for that asset succeeded
(produced a backup file path).  When `continue_download_on_failure` is true
— the default — a failed backup download does NOT prevent deletion: the
asset is still deleted in that run (see the counterexample). -/
theorem C1_strict_delete_needs_successful_backup (o : Oracles) (cfg : Config)
    (pathOf : PyId → String) (assets : List Asset)
    (hcont : cfg.continue_download_on_failure = false) :
    ∀ j id, (runMain o cfg pathOf assets).trace[j]? = some (Event.deleteCall id) →
      cfg.backup_assets = false ∨
      ∃ j', j = j' + 1 ∧
        (runMain o cfg pathOf assets).trace[j']? =
          some (Event.backupAttempt id true) := by
  intro j id hj
  by_cases hb : cfg.backup_assets
  · right
    have hP : DelPreceded true (runMain o cfg pathOf assets).trace := by
      show DelPreceded true
        (actLoop o cfg []
          (filterPhase pathOf cfg (classifyLoop o [] assets 0 assets [] 0).assets)
          (classifyLoop o [] assets 0 assets [] 0).saved 0
          (classifyLoop o [] assets 0 assets [] 0).trace).trace
      exact actLoop_trace_delPreceded o cfg true hb (fun _ => hcont) _ _ _ _ _
        (classify_trace_delPreceded o assets true)
    obtain ⟨j', s, hjj, hj', hs⟩ := hP j id hj
    exact ⟨j', hjj, by rw [← hs rfl]; exact hj'⟩
  · left
    simpa using hb

/-- An unused asset whose backup download fails. -/
def cex_asset : Asset :=
  ⟨1, "https://a.storyblok.com/f/9/x.png", PyId.none, some false, false, false, Option.none⟩

/-- Oracles for which the backup download fails (no cached file, `response.ok`
false). -/
def cexOracles : Oracles :=
  ⟨fun _ => false, fun _ => false, fun _ => false⟩

/-- Backup and (confirmed) deletion requested, `continue_download_on_failure`
left at its default `true`, no blacklists. -/
def cexCfg : Config :=
  ⟨true, true, true, [], [], "9", "assets_backup"⟩

/-- Counterexample to claim C1: with `continue_download_on_failure = true`
(the default), a failed backup download does not stop deletion: the run's
trace records the failed backup attempt immediately followed by the delete
call, and the final state shows the asset deleted with no backup path. -/
theorem C1_counterexample :
    (runMain cexOracles cexCfg (fun _ => "/") [cex_asset]).trace =
      [Event.backupAttempt 1 false, Event.deleteCall 1] ∧
    (runMain cexOracles cexCfg (fun _ => "/") [cex_asset]).final =
      [{ cex_asset with to_be_deleted := true, is_deleted := true }] := by
  constructor
  · decide
  · decide

lemma notInUsePred_of_deleted (a : Asset) (h : a.is_deleted = true) :
    notInUsePred a = false := by
  unfold notInUsePred
  cases a.is_in_use <;> simp [h]

lemma filterPhase_classify_eq (o : Oracles) (cfg : Config) (pathOf : PyId → String)
    (assets : List Asset) :
    filterPhase pathOf cfg (classifyLoop o [] assets 0 assets [] 0).assets =
      (assets.map (classifyStep o)).map (filterStep pathOf cfg) := by
  rw [filterPhase, classifyLoop_assets]
  simp

lemma runMain_final_eq (o : Oracles) (cfg : Config) (pathOf : PyId → String)
    (assets : List Asset)
    (hab : (runMain o cfg pathOf assets).aborted = false) :
    (runMain o cfg pathOf assets).final =
      ((assets.map (classifyStep o)).map (filterStep pathOf cfg)).map (actStep o cfg) := by
  have hab' : (actLoop o cfg []
      (filterPhase pathOf cfg (classifyLoop o [] assets 0 assets [] 0).assets)
      (classifyLoop o [] assets 0 assets [] 0).saved 0
      (classifyLoop o [] assets 0 assets [] 0).trace).aborted = false := hab
  obtain ⟨heq1, -⟩ := actLoop_no_abort o cfg _ [] _ 0 _ hab'
  show (actLoop o cfg []
      (filterPhase pathOf cfg (classifyLoop o [] assets 0 assets [] 0).assets)
      (classifyLoop o [] assets 0 assets [] 0).saved 0
      (classifyLoop o [] assets 0 assets [] 0).trace).assets = _
  rw [heq1, filterPhase_classify_eq]
  simp

lemma runMain_final_isSome (o : Oracles) (cfg : Config) (pathOf : PyId → String)
    (assets : List Asset)
    (hab : (runMain o cfg pathOf assets).aborted = false) :
    ∀ x ∈ (runMain o cfg pathOf assets).final, x.is_in_use.isSome = true := by
  intro x hx
  rw [runMain_final_eq o cfg pathOf assets hab] at hx
  simp only [List.map_map, List.mem_map] at hx
  obtain ⟨w, -, rfl⟩ := hx
  simp only [Function.comp_apply]
  rw [(actStep_fields o cfg _).2.2.2.1, (filterStep_fields pathOf cfg _).2.2.2.1]
  exact classifyStep_is_in_use_isSome o w

lemma runMain_final_no_eligible (o : Oracles) (cfg : Config) (pathOf : PyId → String)
    (assets : List Asset)
    (hab : (runMain o cfg pathOf assets).aborted = false)
    (hd : cfg.should_delete_assets = true) :
    ∀ x ∈ (runMain o cfg pathOf assets).final, notInUsePred x = true →
      should_be_deleted cfg.blacklisted_paths cfg.blacklisted_words
        (pathOf x.asset_folder_id) x.filename = false := by
  have hab' : (actLoop o cfg []
      (filterPhase pathOf cfg (classifyLoop o [] assets 0 assets [] 0).assets)
      (classifyLoop o [] assets 0 assets [] 0).saved 0
      (classifyLoop o [] assets 0 assets [] 0).trace).aborted = false := hab
  obtain ⟨-, habflags⟩ := actLoop_no_abort o cfg _ [] _ 0 _ hab'
  intro x hx hpred
  rw [runMain_final_eq o cfg pathOf assets hab] at hx
  simp only [List.mem_map] at hx
  obtain ⟨y, ⟨z, ⟨w, hw, rfl⟩, rfl⟩, rfl⟩ := hx
  have hyfiltered : filterStep pathOf cfg (classifyStep o w) ∈
      filterPhase pathOf cfg (classifyLoop o [] assets 0 assets [] 0).assets := by
    rw [filterPhase_classify_eq]
    exact List.mem_map_of_mem _ (List.mem_map_of_mem _ hw)
  by_cases hyc : (notInUsePred (filterStep pathOf cfg (classifyStep o w)) &&
      (filterStep pathOf cfg (classifyStep o w)).to_be_deleted) = true
  · exfalso
    have habf := habflags _ hyfiltered hyc
    have hdel := actAsset_deleted_of_no_abort o cfg _ hd habf
    have hstep : actStep o cfg (filterStep pathOf cfg (classifyStep o w)) =
        (actAsset o cfg (filterStep pathOf cfg (classifyStep o w))).1 := by
      unfold actStep
      rw [if_pos hyc]
    rw [hstep] at hpred
    rw [notInUsePred_of_deleted _ hdel] at hpred
    cases hpred
  · have hstep : actStep o cfg (filterStep pathOf cfg (classifyStep o w)) =
        filterStep pathOf cfg (classifyStep o w) := by
      unfold actStep
      rw [if_neg hyc]
    rw [hstep] at hpred ⊢
    set y' := filterStep pathOf cfg (classifyStep o w) with hy'
    have htbd : y'.to_be_deleted = false := by
      by_contra hcontra
      simp only [Bool.not_eq_false] at hcontra
      exact hyc (by rw [hpred, hcontra]; rfl)
    have hpredz : notInUsePred (classifyStep o w) = true := by
      rw [notInUsePred_congr (classifyStep o w) y'
        ((filterStep_fields pathOf cfg _).2.2.2.1).symm
        ((filterStep_fields pathOf cfg _).2.2.2.2).symm]
      exact hpred
    have := filterStep_tbd_of_pred pathOf cfg (classifyStep o w) hpredz
    rw [← hy'] at this
    rw [htbd] at this
    have hfolder : y'.asset_folder_id = (classifyStep o w).asset_folder_id :=
      (filterStep_fields pathOf cfg _).2.2.1
    have hfile : y'.filename = (classifyStep o w).filename :=
      (filterStep_fields pathOf cfg _).2.1
    rw [hfolder, hfile]
    exact this.symm

/-- Claim C8, amended: re-running with caching enabled and no remote state
change performs zero classification calls and zero deletion calls, PROVIDED
the first run did not abort and its last cache save captured its final
in-memory state (e.g. its last action was an acted-upon asset, or nothing
needed classification).  Without that proviso the claim fails: classification
results are only persisted every 25 assets and on acted assets, so a run
whose tail of classifications is never followed by a save leaves a cache
that forces the second run to classify again (see the counterexample). -/
theorem C8_cached_second_run (o o2 : Oracles) (cfg : Config) (pathOf : PyId → String)
    (assets : List Asset)
    (hab : (runMain o cfg pathOf assets).aborted = false)
    (hsf : (runMain o cfg pathOf assets).saved = (runMain o cfg pathOf assets).final) :
    (runMain o2 cfg pathOf ((runMain o cfg pathOf assets).saved)).classifyCalls = 0 ∧
    (runMain o2 cfg pathOf ((runMain o cfg pathOf assets).saved)).deleteCalls = 0 := by
  have hsome : ∀ x ∈ (runMain o cfg pathOf assets).saved, x.is_in_use.isSome = true := by
    rw [hsf]
    exact runMain_final_isSome o cfg pathOf assets hab
  constructor
  · show (classifyLoop o2 [] ((runMain o cfg pathOf assets).saved) 0
      ((runMain o cfg pathOf assets).saved) [] 0).calls = 0
    rw [classifyLoop_calls]
    simp only [Nat.zero_add]
    rw [List.countP_eq_zero]
    intro x hx
    have := hsome x hx
    simp [Option.isNone_iff_eq_none]
    rw [← Option.not_isSome_iff_eq_none, this]
    simp
  · show (actLoop o2 cfg []
      (filterPhase pathOf cfg
        (classifyLoop o2 [] ((runMain o cfg pathOf assets).saved) 0
          ((runMain o cfg pathOf assets).saved) [] 0).assets)
      (classifyLoop o2 [] ((runMain o cfg pathOf assets).saved) 0
        ((runMain o cfg pathOf assets).saved) [] 0).saved 0
      (classifyLoop o2 [] ((runMain o cfg pathOf assets).saved) 0
        ((runMain o cfg pathOf assets).saved) [] 0).trace).deletes = 0
    rcases Bool.eq_false_or_eq_true cfg.should_delete_assets with hd | hd
    case inr => exact actLoop_deletes_of_no_delete o2 cfg hd _ _ _ _ _
    case inl =>
      apply actLoop_deletes_of_no_eligible
      intro x2 hx2
      rw [filterPhase_classify_eq] at hx2
      obtain ⟨mid, hmid, rfl⟩ := List.mem_map.mp hx2
      obtain ⟨x, hxmem, rfl⟩ := List.mem_map.mp hmid
      have hxs := hsome x hxmem
      have hcs : classifyStep o2 x = { x with to_be_deleted := false } :=
        classifyStep_of_isSome o2 x hxs
      have hxfinal : x ∈ (runMain o cfg pathOf assets).final := by
        rw [← hsf]; exact hxmem
      have hpredmid : notInUsePred (classifyStep o2 x) = notInUsePred x := by
        apply notInUsePred_congr
        · rw [hcs]
        · rw [hcs]
      rcases Bool.eq_false_or_eq_true (notInUsePred x) with hpx | hpx
      · have hpred2 : notInUsePred (classifyStep o2 x) = true := by rw [hpredmid, hpx]
        have hshould := runMain_final_no_eligible o cfg pathOf assets hab hd x hxfinal hpx
        have htbd2 := filterStep_tbd_of_pred pathOf cfg (classifyStep o2 x) hpred2
        rw [hcs] at htbd2
        simp only [] at htbd2
        rw [hshould] at htbd2
        rw [Bool.and_eq_false_iff]
        right
        rw [← hcs] at htbd2
        exact htbd2
      · have hpred2 : notInUsePred (classifyStep o2 x) = false := by rw [hpredmid, hpx]
        rw [filterStep_eq_of_not_pred pathOf cfg _ hpred2]
        rw [hpred2]
        rfl

/-- An asset that has never been classified (no `is_in_use` key). -/
def c8_asset : Asset :=
  ⟨1, "x.png", PyId.none, Option.none, false, false, Option.none⟩

/-- Oracles under which the asset is found to be in use. -/
def c8Oracles : Oracles :=
  ⟨fun _ => true, fun _ => true, fun _ => true⟩

/-- Deletion and backup both disabled (a pure classification run). -/
def c8Cfg : Config :=
  ⟨false, false, true, [], [], "9", "b"⟩

/-- Counterexample to claim C8: the first run classifies the lone asset
(one classification call) but never saves afterwards — the periodic save
fires only every 25 classifications and the ACT phase saves only for acted
assets — so the cache still holds the unclassified asset, and the second
run performs one classification call, not zero. -/
theorem C8_counterexample :
    (runMain c8Oracles c8Cfg (fun _ => "/") [c8_asset]).classifyCalls = 1 ∧
    (runMain c8Oracles c8Cfg (fun _ => "/")
      ((runMain c8Oracles c8Cfg (fun _ => "/") [c8_asset]).saved)).classifyCalls = 1 := by
  constructor
  · decide
  · decide

/-- Witness for the amended C8: an already-classified in-use asset; the
first run's save equals its final state, and the second run performs zero
classification calls and zero deletions. -/
theorem C8_cached_second_run_witness :
    (runMain c8Oracles c8Cfg (fun _ => "/")
      ((runMain c8Oracles c8Cfg (fun _ => "/")
        [{ c8_asset with is_in_use := some true }]).saved)).classifyCalls = 0 ∧
    (runMain c8Oracles c8Cfg (fun _ => "/")
      ((runMain c8Oracles c8Cfg (fun _ => "/")
        [{ c8_asset with is_in_use := some true }]).saved)).deleteCalls = 0 :=
  C8_cached_second_run c8Oracles c8Oracles c8Cfg (fun _ => "/")
    [{ c8_asset with is_in_use := some true }] (by decide) (by decide)

/-- A not-in-use asset whose backup download succeeds. -/
def w_asset : Asset :=
  ⟨1, "https://a.storyblok.com/f/9/x.png", PyId.none, some false, false, false, Option.none⟩

/-- Oracles with a working download. -/
def wOracles : Oracles :=
  ⟨fun _ => false, fun _ => false, fun _ => true⟩

/-- Backup on, deletion confirmed, `continue_download_on_failure` false. -/
def wCfg : Config :=
  ⟨true, true, false, [], [], "9", "b"⟩

/-- Witness for C2 at a concrete run whose trace is
`[backupAttempt 1 true, deleteCall 1]`: the delete call at position 1 is
immediately preceded by the backup attempt. -/
theorem C2_backup_attempt_precedes_delete_witness :
    ∃ j' s, (1 : Nat) = j' + 1 ∧
      (runMain wOracles wCfg (fun _ => "/") [w_asset]).trace[j']? =
        some (Event.backupAttempt 1 s) :=
  (C2_backup_attempt_precedes_delete wOracles wCfg (fun _ => "/") [w_asset] rfl).1
    1 1 (by decide)

/-- Witness for the amended C1 at the same concrete strict-mode run: the
delete call at position 1 is preceded by a successful backup attempt. -/
theorem C1_strict_delete_needs_successful_backup_witness :
    wCfg.backup_assets = false ∨
    ∃ j', (1 : Nat) = j' + 1 ∧
      (runMain wOracles wCfg (fun _ => "/") [w_asset]).trace[j']? =
        some (Event.backupAttempt 1 true) :=
  C1_strict_delete_needs_successful_backup wOracles wCfg (fun _ => "/") [w_asset]
    rfl 1 1 (by decide)

/-- An already-classified in-use asset for the C7 witness run. -/
def c7_asset : Asset :=
  ⟨1, "f.png", PyId.none, some true, false, false, Option.none⟩

/-- Oracles for the C7 witness run. -/
def c7O : Oracles :=
  ⟨fun _ => true, fun _ => true, fun _ => true⟩

/-- A dry-run configuration for the C7 witness. -/
def c7Cfg : Config :=
  ⟨false, false, true, [], [], "s", "b"⟩

/-- Witness for C7: the saved-state invariant instantiated on a concrete
run whose cache snapshot contains the in-use asset. -/
theorem C7_to_be_deleted_never_while_in_use_witness :
    c7_asset.to_be_deleted = true → c7_asset.is_in_use ≠ some true :=
  (C7_to_be_deleted_never_while_in_use c7O c7Cfg (fun _ => "/") [c7_asset]).2.2.2
    (by decide) c7_asset (by decide)

end StoryblokCleanup
